import Mathlib

/-!
Verification of the ytdownloader web application's core logic against its
specification.  The definitions below are shallow embeddings of the
TypeScript source: the rate limiters of `src/app/api/video-info/route.ts`
and of the download route, the URL / format-id validators, the format
post-processing and sorting, the download-file location and size guard,
the client download helpers, and the client-side download queue state
machine of `src/components/video-url-form.tsx`.  JavaScript numbers are
modelled as `Nat` (all the quantities involved are non-negative integers),
strings as Lean `String` / `List Char`, and the process-wide `Map`s as
association lists kept in insertion order, matching JavaScript `Map`
iteration order.
-/

/-! ## Rate limiter (video-info route lines 7-35, download route lines 16-50) -/

/-- An entry of the in-memory rate-limit map: `{ count, resetTime }`. -/
structure RLEntry where
  count : Nat
  resetTime : Nat
  deriving DecidableEq, Repr

/-- The in-memory store, a JavaScript `Map<string, RLEntry>` in insertion order. -/
abbrev RLMap : Type := List (String × RLEntry)

/-- Sweep of expired entries: `if (now > value.resetTime) map.delete(key)`. -/
def sweepExpired (now : Nat) (m : RLMap) : RLMap :=
  m.filter (fun kv => !(now > kv.2.resetTime))

/-- Lookup in the map: `rateLimitMap.get(ip)`. -/
def rlLookup (ip : String) (m : RLMap) : Option RLEntry :=
  (m.find? (fun kv => kv.1 = ip)).map (fun kv => kv.2)

/-- Store a value under a key, JavaScript `Map.set`: an existing binding is
updated in place (insertion order kept), a new key is appended at the end. -/
def rlSet (ip : String) (e : RLEntry) (m : RLMap) : RLMap :=
  if m.any (fun kv => kv.1 = ip) then
    m.map (fun kv => if kv.1 = ip then (ip, e) else kv)
  else
    m ++ [(ip, e)]

/-- The body shared by `checkRateLimit` and `checkDownloadRateLimit`: sweep
all expired entries, then create/reset with count 1 on a missing or expired
entry, deny at or above the maximum, and otherwise increment and allow.
Returns the allow decision and the map after the call. -/
def checkRateLimitGen (maxReq window now : Nat) (ip : String) (m : RLMap) :
    Bool × RLMap :=
  match rlLookup ip (sweepExpired now m) with
  | none => (true, rlSet ip ⟨1, now + window⟩ (sweepExpired now m))
  | some userLimit =>
    if now > userLimit.resetTime then
      (true, rlSet ip ⟨1, now + window⟩ (sweepExpired now m))
    else if userLimit.count ≥ maxReq then
      (false, sweepExpired now m)
    else
      (true, rlSet ip ⟨userLimit.count + 1, userLimit.resetTime⟩ (sweepExpired now m))

/-- Constant `RATE_LIMIT_WINDOW = 60 * 1000` of the video-info route. -/
def RATE_LIMIT_WINDOW : Nat := 60 * 1000

/-- Constant `RATE_LIMIT_MAX_REQUESTS = 30` of the video-info route. -/
def RATE_LIMIT_MAX_REQUESTS : Nat := 30

/-- Constant `DOWNLOAD_RATE_LIMIT_WINDOW = 60 * 1000` of the download route. -/
def DOWNLOAD_RATE_LIMIT_WINDOW : Nat := 60 * 1000

/-- Constant `DOWNLOAD_RATE_LIMIT_MAX_REQUESTS = 10` of the download route. -/
def DOWNLOAD_RATE_LIMIT_MAX_REQUESTS : Nat := 10

/-- Function `checkRateLimit` of the video-info route (30 per 60 s). -/
def checkRateLimit (now : Nat) (ip : String) (m : RLMap) : Bool × RLMap :=
  checkRateLimitGen RATE_LIMIT_MAX_REQUESTS RATE_LIMIT_WINDOW now ip m

/-- Function `checkDownloadRateLimit` of the download route (10 per 60 s). -/
def checkDownloadRateLimit (now : Nat) (ip : String) (m : RLMap) : Bool × RLMap :=
  checkRateLimitGen DOWNLOAD_RATE_LIMIT_MAX_REQUESTS DOWNLOAD_RATE_LIMIT_WINDOW now ip m

/-- Run a sequence of rate-limit checks for one client key, returning the
list of allow decisions and the final map. -/
def rlRun (maxReq window : Nat) (ip : String) (m : RLMap) :
    List Nat → List Bool × RLMap
  | [] => ([], m)
  | t :: ts =>
    let r := checkRateLimitGen maxReq window t ip m
    let rest := rlRun maxReq window ip r.2 ts
    (r.1 :: rest.1, rest.2)

/-- No binding for the key `ip` occurs in the association list. -/
def NoIp (ip : String) (m : RLMap) : Prop :=
  ∀ kv ∈ m, kv.1 ≠ ip

/-! ## String helpers shared by several embedded functions -/

/-- Substring test on character lists (JavaScript `String.prototype.includes`). -/
def hasSub (hay needle : List Char) : Bool :=
  if needle.isPrefixOf hay then true
  else
    match hay with
    | [] => false
    | _ :: t => hasSub t needle

/-- Substring test on strings. -/
def hasSubStr (hay needle : String) : Bool :=
  hasSub hay.data needle.data

/-- The characters removed by both filename sanitizers: `[<>:"/\\|?*]`. -/
def invalidFilenameChars : List Char :=
  ['<', '>', ':', '"', '/', '\\', '|', '?', '*']

/-- Printable-ASCII test, the complement of the `[^\x20-\x7E]` class. -/
def isPrintableAscii (c : Char) : Bool :=
  0x20 ≤ c.toNat && c.toNat ≤ 0x7E

/-- JavaScript whitespace (the `\s` class and the set trimmed by `trim()`). -/
def isJsWhitespace (c : Char) : Bool :=
  c = ' ' || c = '\t' || c = '\n' || c = '\r' ||
  c.toNat = 0x0b || c.toNat = 0x0c || c.toNat = 0xa0 ||
  c.toNat = 0x1680 || (0x2000 ≤ c.toNat && c.toNat ≤ 0x200a) ||
  c.toNat = 0x2028 || c.toNat = 0x2029 || c.toNat = 0x202f ||
  c.toNat = 0x205f || c.toNat = 0x3000 || c.toNat = 0xfeff

/-- Worker for `collapseWs`: the flag records whether the previous character
was whitespace (so the run has already emitted its single space). -/
def collapseWsAux : Bool → List Char → List Char
  | _, [] => []
  | prevWs, c :: rest =>
    if isJsWhitespace c then
      if prevWs then collapseWsAux true rest
      else ' ' :: collapseWsAux true rest
    else c :: collapseWsAux false rest

/-- JavaScript `replace(/\s+/g, " ")`: each maximal whitespace run becomes one space. -/
def collapseWs (l : List Char) : List Char :=
  collapseWsAux false l

/-- JavaScript `String.prototype.trim()` on a character list. -/
def trimJs (l : List Char) : List Char :=
  (((l.dropWhile isJsWhitespace).reverse).dropWhile isJsWhitespace).reverse

/-- Server-side `sanitizeFilename` (download route lines 68-75): strip the
invalid characters, strip non-printable-ASCII, collapse whitespace runs,
trim, and truncate to 200 characters. -/
def sanitizeFilename (filename : String) : String :=
  (((collapseWs ((filename.data.filter
      (fun c => !(invalidFilenameChars.contains c))).filter
        isPrintableAscii)).dropWhile isJsWhitespace).reverse.dropWhile
          isJsWhitespace).reverse.take 200 |>.asString

/-- Client-side `sanitizeFilename` (lib/api lines 191-197): the same steps
except that whitespace runs are NOT collapsed. -/
def sanitizeFilenameClient (filename : String) : String :=
  ((((filename.data.filter
      (fun c => !(invalidFilenameChars.contains c))).filter
        isPrintableAscii).dropWhile isJsWhitespace).reverse.dropWhile
          isJsWhitespace).reverse.take 200 |>.asString

/-! ## Client progress reporting (lib/api `downloadVideo`, lines 87-104) -/

/-- Rounding of `loaded / total * 100` as `Math.round` computes it over the
rationals: `round q = floor (q + 1/2)`, here `(200*loaded + total) / (2*total)`
in natural division. -/
def jsRound100 (loaded total : Nat) : Nat :=
  (200 * loaded + total) / (2 * total)

/-- The XHR `progress` listener: with a computable length and a callback it
reports the rounded percentage; with a callback but no computable length it
reports the constant `0` (the code's "indeterminate progress" marker); with
no callback nothing is reported. -/
def onProgressEvent (lengthComputable : Bool) (loaded total : Nat)
    (hasCallback : Bool) : Option Nat :=
  if lengthComputable && hasCallback then some (jsRound100 loaded total)
  else if hasCallback then some 0
  else none

/-! ## Content types and the client-side load handler -/

/-- The fixed extension-to-MIME table of the download route (lines 78-89). -/
def contentTypes : List (String × String) :=
  [("mp4", "video/mp4"), ("webm", "video/webm"), ("mkv", "video/x-matroska"),
   ("avi", "video/x-msvideo"), ("mov", "video/quicktime"), ("mp3", "audio/mpeg"),
   ("m4a", "audio/mp4"), ("aac", "audio/aac"), ("ogg", "audio/ogg"),
   ("wav", "audio/wav")]

/-- ASCII lower-casing of a string, character by character (the behavior of
JavaScript `toLowerCase()` on the ASCII extensions involved). -/
def lowerAscii (s : String) : String :=
  (s.data.map Char.toLower).asString

/-- Server `getContentType`: table lookup on the lower-cased extension,
defaulting to `application/octet-stream`. -/
def getContentType (fileExtension : String) : String :=
  (((contentTypes.find? (fun kv => kv.1 = lowerAscii fileExtension)).map
    (fun kv => kv.2)).getD "application/octet-stream")

/-- The client's acceptance test on the `content-type` header of a 2xx file
response: the header must be present and contain `"video"` or `"audio"`. -/
def clientAcceptsContentType : Option String → Bool
  | none => false
  | some ct => hasSubStr ct "video" || hasSubStr ct "audio"

/-- Outcome of the client's XHR `load` handler. -/
inductive LoadOutcome where
  | saved (filename : Option String)
  | rejected (msg : String) (status : Nat)
  deriving DecidableEq, Repr

/-- Split a character list at the first occurrence of a separator. -/
def splitOnFirstList (sep : List Char) : List Char → Option (List Char × List Char)
  | [] => if sep.isEmpty then some ([], []) else none
  | c :: rest =>
    if sep.isPrefixOf (c :: rest) then some ([], (c :: rest).drop sep.length)
    else
      match splitOnFirstList sep rest with
      | some p => some (c :: p.1, p.2)
      | none => none

/-- The browser save name: from a `Content-Disposition` header when present
(`split("filename=")[1]?.replace(/"/g, "")`, `none` when the marker is
absent), otherwise the sanitized `title - channel` fallback with the `.mp4`
default extension. -/
def downloadFilename (contentDisposition : Option String)
    (title channel : String) : Option String :=
  match contentDisposition with
  | some cd =>
    (splitOnFirstList "filename=".data cd.data).map
      (fun p => ((p.2.filter (fun c => c ≠ '"')).asString))
  | none =>
    some (sanitizeFilenameClient title ++ " - " ++ sanitizeFilenameClient channel ++ ".mp4")

/-- The client's XHR `load` handler (lib/api lines 107-161): on a 2xx status
the content type is checked, an empty blob is rejected, and only then is a
browser save triggered; a non-2xx status is reported with the server's
error message (or the default). -/
def handleLoad (status : Nat) (contentType : Option String) (blobSize : Nat)
    (contentDisposition : Option String) (title channel : String)
    (serverError : Option String) : LoadOutcome :=
  if 200 ≤ status && status < 300 then
    if !(clientAcceptsContentType contentType) then
      .rejected "Invalid file type received" 500
    else if blobSize = 0 then
      .rejected "Downloaded file is empty" 500
    else
      .saved (downloadFilename contentDisposition title channel)
  else
    .rejected (serverError.getD "Download failed") status

/-! ## URL validation (video-info route lines 41-72) -/

/-- The hostname/pathname pair that `new URL(...)` exposes, as far as
`validateYouTubeUrl` consumes it. -/
structure URLParts where
  hostname : String
  pathname : String
  deriving DecidableEq, Repr

/-- The characters after the last `@` of a list (drops the URL userinfo). -/
def afterLastAt (l : List Char) : List Char :=
  ((l.reverse.takeWhile (fun c => c ≠ '@')).reverse)

/-- Parser for absolute `http`/`https` URLs, modelling the fields of the
WHATWG `URL` object that the validator reads: the scheme is taken up to the
first `:` and must be http(s) followed by `//`; the authority runs to the
first `/`, `?` or `#`; userinfo and port are dropped from the hostname,
which is lower-cased and must be non-empty; the pathname is the part of the
rest before any `?` or `#`, and `/` when the path is empty. -/
def parseURL (url : String) : Option URLParts :=
  match splitOnFirstList [':'] url.data with
  | none => none
  | some sp =>
    let scheme := (sp.1.map Char.toLower).asString
    if !(scheme = "http" || scheme = "https") then none
    else if !(['/', '/'].isPrefixOf sp.2) then none
    else
      let afterSlashes := sp.2.drop 2
      let authority := afterSlashes.takeWhile (fun c => c ≠ '/' && c ≠ '?' && c ≠ '#')
      let rest := afterSlashes.dropWhile (fun c => c ≠ '/' && c ≠ '?' && c ≠ '#')
      let host := (afterLastAt authority).takeWhile (fun c => c ≠ ':')
      if host.isEmpty then none
      else
        let pathname :=
          match rest with
          | [] => "/"
          | c :: _ => if c = '/' then (rest.takeWhile (fun x => x ≠ '?' && x ≠ '#')).asString else "/"
        some ⟨(host.map Char.toLower).asString, pathname⟩

/-- The fixed allow-list of hostnames of `validateYouTubeUrl`. -/
def validHosts : List String :=
  ["www.youtube.com", "youtube.com", "youtu.be", "m.youtube.com"]

/-- Function `validateYouTubeUrl`: parse, check the hostname against the
allow-list, then accept any pathname longer than `/` for `youtu.be` and a
pathname containing `/watch` or `/shorts/` for the other hosts. -/
def validateYouTubeUrl (url : String) : Bool :=
  match parseURL url with
  | none => false
  | some u =>
    if !(validHosts.contains u.hostname) then false
    else if u.hostname = "youtu.be" then decide (u.pathname.length > 1)
    else hasSubStr u.pathname "/watch" || hasSubStr u.pathname "/shorts/"

/-- Function `sanitizeInput` of the video-info route: trim, truncate to 2000. -/
def sanitizeInput (input : String) : String :=
  ((trimJs input.data).take 2000).asString

/-- Modelled from the spec (section 4.2 / section 8, testable properties):
the accepted video-reference shapes — a watch path, a short-form (shorts)
path, or, for the short domain `youtu.be`, any non-empty path. -/
def specAcceptedVideoRef (u : URLParts) : Prop :=
  hasSubStr u.pathname "/watch" = true ∨ hasSubStr u.pathname "/shorts/" = true ∨
    (u.hostname = "youtu.be" ∧ u.pathname.length > 1)

instance (u : URLParts) : Decidable (specAcceptedVideoRef u) := by
  unfold specAcceptedVideoRef
  infer_instance

/-! ## Format processing (video-info route lines 232-288) -/

/-- A raw format record as emitted by the external tool's JSON.  Absent or
falsy JSON fields are `none` / the falsy value: the truthiness tests of the
source are modelled by `strTruthy` / `natTruthy`. -/
structure RawFormat where
  format_id : Option String := none
  ext : Option String := none
  height : Option Nat := none
  abr : Option Nat := none
  quality : Option String := none
  format_note : Option String := none
  vcodec : Option String := none
  acodec : Option String := none
  fps : Option Nat := none
  tbr : Option Nat := none
  filesize : Option Nat := none
  deriving DecidableEq, Repr

/-- JavaScript truthiness of an optional string (absent and `""` are falsy). -/
def strTruthy : Option String → Bool
  | some s => s ≠ ""
  | none => false

/-- JavaScript truthiness of an optional number (absent and `0` are falsy). -/
def natTruthy : Option Nat → Bool
  | some n => n ≠ 0
  | none => false

/-- The processed shape the route returns to the client. -/
structure ProcessedFormat where
  format_id : Option String
  ext : String
  quality : String
  filesize : Option Nat
  format_note : Option String
  vcodec : Option String
  acodec : Option String
  fps : Option Nat
  tbr : Option Nat
  deriving DecidableEq, Repr

/-- Leftmost match of the regular expression `(\d+)SUFFIX` (with `SUFFIX` a
literal such as `p` or `kbps`): the first position holding a non-empty
maximal digit run immediately followed by the suffix; the run's value is
returned.  Matches JavaScript `String.match` for these patterns. -/
def findNumBefore (suffix : List Char) : List Char → Option Nat
  | [] => none
  | c :: rest =>
    if c.isDigit then
      if suffix.isPrefixOf ((c :: rest).dropWhile Char.isDigit) then
        some (((c :: rest).takeWhile Char.isDigit).foldl
          (fun n d => n * 10 + (d.toNat - 48)) 0)
      else findNumBefore suffix rest
    else findNumBefore suffix rest

/-- Function `getQualityString`: height first, then audio bitrate, then the
raw quality, then the format note, then the fixed fallback. -/
def getQualityString (format : RawFormat) : String :=
  if natTruthy format.height then toString (format.height.getD 0) ++ "p"
  else if natTruthy format.abr then toString (format.abr.getD 0) ++ "kbps"
  else if strTruthy format.quality then format.quality.getD ""
  else if strTruthy format.format_note then format.format_note.getD ""
  else "Unknown quality"

/-- Function `getQualityScore`: a video format (vcodec truthy and not
`"none"`) whose quality string matches `(\d+)p` scores height + 10000;
otherwise a `(\d+)kbps` match scores the bitrate, and anything else 0. -/
def getQualityScore (quality : String) (vcodec : Option String) : Nat :=
  if strTruthy vcodec && vcodec ≠ some "none" then
    match findNumBefore ['p'] quality.data with
    | some n => n + 10000
    | none => (findNumBefore ['k', 'b', 'p', 's'] quality.data).getD 0
  else (findNumBefore ['k', 'b', 'p', 's'] quality.data).getD 0

/-- The filter of `processFormats`: a truthy `format_id` and at least one of
height, audio bitrate or quality. -/
def formatKeep (format : RawFormat) : Bool :=
  strTruthy format.format_id &&
    (natTruthy format.height || natTruthy format.abr || strTruthy format.quality)

/-- The map step of `processFormats`. -/
def toProcessed (format : RawFormat) : ProcessedFormat :=
  { format_id := format.format_id,
    ext := if strTruthy format.ext then format.ext.getD "" else "unknown",
    quality := getQualityString format,
    filesize := format.filesize,
    format_note := format.format_note,
    vcodec := format.vcodec,
    acodec := format.acodec,
    fps := format.fps,
    tbr := format.tbr }

/-- The quality score of a processed descriptor. -/
def scoreOf (f : ProcessedFormat) : Nat :=
  getQualityScore f.quality f.vcodec

/-- The sort order of `processFormats`: the JavaScript comparator
`bScore - aScore` sorts descending by score, stably. -/
def formatLe (a b : ProcessedFormat) : Bool :=
  scoreOf b ≤ scoreOf a

/-- Function `processFormats`: filter, map, and stable-sort descending by
quality score (JavaScript `Array.prototype.sort` is stable, so it agrees
with a stable merge sort under this total comparator). -/
def processFormats (formats : List RawFormat) : List ProcessedFormat :=
  ((formats.filter formatKeep).map toProcessed).mergeSort formatLe

/-- A video-capable descriptor: vcodec present (truthy) and not `"none"`. -/
def isVideoCapable (f : ProcessedFormat) : Bool :=
  strTruthy f.vcodec && f.vcodec ≠ some "none"

/-! ## Download route: request validation and command build (part_002 lines 63-151) -/

/-- Function `validateFormatId`: `/^[a-zA-Z0-9_-]+$/.test(formatId) &&
formatId.length <= 20`. -/
def validateFormatId (formatId : String) : Bool :=
  (formatId.data ≠ [] && formatId.data.all
    (fun c => c.isAlphanum || c = '_' || c = '-')) && formatId.length ≤ 20

/-- The parsed body of a download request; a field that is absent or not a
string is `none` (both are rejected the same way by the handler). -/
structure DLBody where
  url : Option String := none
  formatId : Option String := none
  title : Option String := none
  channel : Option String := none
  deriving DecidableEq, Repr

/-- What the download handler decides before any subprocess work: an error
response, or the subprocess command to run together with the sanitized
base filename used for the output template. -/
inductive DLDecision where
  | reject (status : Nat) (msg : String)
  | run (cmd : String) (filename : String)
  deriving DecidableEq, Repr

/-- The download route's `POST` handler up to the subprocess invocation
(part_002 lines 95-151): rate limit, body parse, `url` and `formatId`
presence, `validateFormatId`, then the sanitized filename, the output path
template and the `yt-dlp` command line. -/
def downloadPrecheck (rateLimitOk : Bool) (body : Option DLBody)
    (tempDir : String) : DLDecision :=
  if !rateLimitOk then
    .reject 429 "Download rate limit exceeded. Please try again later."
  else
    match body with
    | none => .reject 400 "Invalid JSON in request body"
    | some b =>
      if !(strTruthy b.url) then
        .reject 400 "URL is required and must be a string"
      else if !(strTruthy b.formatId) then
        .reject 400 "Format ID is required and must be a string"
      else if !(validateFormatId (b.formatId.getD "")) then
        .reject 400 "Invalid format ID"
      else
        let sanitizedTitle :=
          sanitizeFilename (if strTruthy b.title then b.title.getD "" else "video")
        let sanitizedChannel :=
          sanitizeFilename (if strTruthy b.channel then b.channel.getD "" else "unknown")
        let filename := sanitizedTitle ++ " - " ++ sanitizedChannel
        let outputPath := tempDir ++ "/" ++ filename ++ ".%(ext)s"
        .run ("yt-dlp -f " ++ b.formatId.getD "" ++ " -o \"" ++ outputPath ++
          "\" --no-warnings \"" ++ b.url.getD "" ++ "\"") filename

/-! ## Download route: file location, size guard, streaming (part_002 lines 176-264) -/

/-- A file of the temporary directory, by name and size in bytes. -/
structure FSFile where
  name : String
  size : Nat
  deriving DecidableEq, Repr

/-- Constant `maxFileSize = 2000 * 1024 * 1024` (the 2 GB cap). -/
def MAX_FILE_SIZE : Nat := 2000 * 1024 * 1024

/-- The served response: an error JSON with a status, or the located file
streamed back with its content type. -/
inductive ServeOutcome where
  | jsonError (status : Nat) (msg : String)
  | stream (filename : String) (size : Nat) (contentType : String)
  deriving DecidableEq, Repr

/-- The extension of the located file: `name.split(".").pop() || "mp4"`. -/
def fileExtensionOf (name : String) : String :=
  let e := (name.data.splitOn '.').getLastD []
  if e.isEmpty then "mp4" else e.asString

/-- The download route after a successful subprocess run (part_002 lines
176-264): list the temporary directory, keep the entries whose name contains
the sanitized base filename, take the first, re-check its existence, stat
it, delete it and answer 413 when it exceeds the 2 GB cap, and otherwise
stream it.  Returns the response and the directory contents after the
handler's own immediate filesystem effects. -/
def locateAndServe (tempDirFiles : List FSFile) (filename : String) :
    ServeOutcome × List FSFile :=
  let downloadedFiles := tempDirFiles.filter (fun f => hasSub f.name.data filename.data)
  match downloadedFiles with
  | [] => (.jsonError 500 "Download completed but file not found", tempDirFiles)
  | downloadedFile :: _ =>
    if !(tempDirFiles.any (fun f => f.name = downloadedFile.name)) then
      (.jsonError 500 "Downloaded file not found", tempDirFiles)
    else if downloadedFile.size > MAX_FILE_SIZE then
      (.jsonError 413 "File too large. Maximum size is 2GB.",
        tempDirFiles.filter (fun f => f.name ≠ downloadedFile.name))
    else
      (.stream downloadedFile.name downloadedFile.size
        (getContentType (fileExtensionOf downloadedFile.name)), tempDirFiles)

/-! ## Client download queue (video-url-form lines 36-305)

The browser side is single-threaded and cooperative: every mutation of the
queue state happens on one callback delivery, so the component is modelled
as a labelled transition system whose events are those callbacks.  The
state carries the `downloads` array, the pending-identifier queue
(`downloadQueueRef`), and the identifiers of the transfers started by
`startDownload` and not yet finished (`activeDownloads` is its length). -/

/-- The status field of a `DownloadItem`. -/
inductive DStatus where
  | queued | preparing | downloading | completed | error | cancelled
  deriving DecidableEq, Repr

/-- A `DownloadItem` as far as the queue logic reads it. -/
structure DItem where
  id : String
  status : DStatus
  progress : Option Nat := none
  errorMsg : Option String := none
  deriving DecidableEq, Repr

/-- The component state: `downloads` (new items are prepended), the FIFO
`downloadQueueRef` of pending identifiers, and the in-flight transfers. -/
structure QState where
  items : List DItem
  queue : List String
  inflight : List String
  deriving DecidableEq, Repr

/-- Find a download by identifier: `downloads.find((d) => d.id === downloadId)`. -/
def findItem (items : List DItem) (id : String) : Option DItem :=
  items.find? (fun it => it.id = id)

/-- The status of the item with the given identifier, when present. -/
def statusOf (s : QState) (id : String) : Option DStatus :=
  (findItem s.items id).map (fun it => it.status)

/-- The shape of every `setDownloads(prev => prev.map((d) => d.id ===
downloadId ? { ...d, ... } : d))` in the source: update the one matching
item with `f`. -/
def updateItem (items : List DItem) (id : String) (f : DItem → DItem) : List DItem :=
  items.map (fun it => if it.id = id then f it else it)

/-- Map-update of one item's status. -/
def setStatus (items : List DItem) (id : String) (st : DStatus) : List DItem :=
  updateItem items id (fun it => { it with status := st })

/-- Map-update of one item's progress. -/
def setProgress (items : List DItem) (id : String) (p : Nat) : List DItem :=
  updateItem items id (fun it => { it with progress := some p })

/-- Map-update on error: status `error` plus the classified message. -/
def setError (items : List DItem) (id : String) (msg : String) : List DItem :=
  updateItem items id (fun it => { it with status := .error, errorMsg := some msg })

/-- The retry reset: status `queued`, progress and error cleared (a fresh
abort controller is issued; the handle itself is not modelled). -/
def resetToQueued (items : List DItem) (id : String) : List DItem :=
  updateItem items id
    (fun it => { it with status := .queued, progress := none, errorMsg := none })

/-- The events (callback deliveries) that mutate the queue state. -/
inductive QEvent where
  | enqueue (id : String)
  | admitHead (id : String)
  | skip (id : String)
  | sendReq (id : String)
  | progressEv (id : String) (p : Nat)
  | finishOk (id : String)
  | finishErr (id : String) (msg : String)
  | finishCancel (id : String)
  | cancelQueued (id : String)
  | retry (id : String)
  | clearCompleted
  deriving DecidableEq, Repr

/-- One transition of the queue component.

  * `enqueue`: `handleDownload` — a fresh item (identifier derived from video
    id, format id and creation timestamp, so unique) is prepended to
    `downloads` with status `queued` and its id pushed at the back of the
    pending queue.
  * `admitHead`: `processQueue` when the active slot is free and the popped head
    identifier is a `queued` item — `startDownload` is invoked (the transfer
    becomes in-flight) and the status is set to `preparing`.
  * `skip`: `processQueue` when the popped head identifier no longer names a
    `queued` item — it is dropped and the slot is not consumed.
  * `sendReq`: the synchronous start of `startDownload` — the admitted item
    moves from `preparing` to `downloading` as the request is issued.
  * `progressEv`: a progress callback of the in-flight transfer.
  * `finishOk` / `finishErr` / `finishCancel`: `downloadVideo` settles — the
    item's status is overwritten and `activeDownloads` is decremented.
  * `cancelQueued`: `handleCancelDownload` on a `queued` item — the id is
    filtered out of the pending queue and the status flipped to `cancelled`,
    with no request ever issued.
  * `retry`: `handleRetryDownload` — the item is reset to `queued` and its id
    appended at the back of the pending queue.
  * `clearCompleted`: `handleClearCompleted` — completed items are removed. -/
inductive QStep : QState → QEvent → QState → Prop where
  | enqueue {s : QState} {id : String} (hfresh : findItem s.items id = none) :
      QStep s (.enqueue id)
        ⟨⟨id, .queued, none, none⟩ :: s.items, s.queue ++ [id], s.inflight⟩
  | admitHead {s : QState} {id : String} {rest : List String} {it : DItem}
      (hq : s.queue = id :: rest) (hslot : s.inflight = [])
      (hit : findItem s.items id = some it) (hst : it.status = .queued) :
      QStep s (.admitHead id) ⟨setStatus s.items id .preparing, rest, [id]⟩
  | skip {s : QState} {id : String} {rest : List String}
      (hq : s.queue = id :: rest) (hslot : s.inflight = [])
      (hno : ∀ it, findItem s.items id = some it → it.status ≠ .queued) :
      QStep s (.skip id) ⟨s.items, rest, s.inflight⟩
  | sendReq {s : QState} {id : String} {it : DItem}
      (hin : id ∈ s.inflight) (hit : findItem s.items id = some it)
      (hst : it.status = .preparing) :
      QStep s (.sendReq id) ⟨setStatus s.items id .downloading, s.queue, s.inflight⟩
  | progressEv {s : QState} {id : String} {p : Nat} (hin : id ∈ s.inflight) :
      QStep s (.progressEv id p) ⟨setProgress s.items id p, s.queue, s.inflight⟩
  | finishOk {s : QState} {id : String} (hin : id ∈ s.inflight) :
      QStep s (.finishOk id)
        ⟨setStatus s.items id .completed, s.queue, s.inflight.erase id⟩
  | finishErr {s : QState} {id : String} {msg : String} (hin : id ∈ s.inflight) :
      QStep s (.finishErr id msg)
        ⟨setError s.items id msg, s.queue, s.inflight.erase id⟩
  | finishCancel {s : QState} {id : String} (hin : id ∈ s.inflight) :
      QStep s (.finishCancel id)
        ⟨setStatus s.items id .cancelled, s.queue, s.inflight.erase id⟩
  | cancelQueued {s : QState} {id : String} {it : DItem}
      (hit : findItem s.items id = some it) (hst : it.status = .queued) :
      QStep s (.cancelQueued id)
        ⟨setStatus s.items id .cancelled, s.queue.filter (fun x => x ≠ id), s.inflight⟩
  | retry {s : QState} {id : String} {it : DItem}
      (hit : findItem s.items id = some it) :
      QStep s (.retry id) ⟨resetToQueued s.items id, s.queue ++ [id], s.inflight⟩
  | clearCompleted {s : QState} :
      QStep s .clearCompleted
        ⟨s.items.filter (fun it => it.status ≠ .completed), s.queue, s.inflight⟩

/-- The initial component state: no downloads, empty queue, nothing in flight. -/
def qInit : QState := ⟨[], [], []⟩

/-- A finite run of the component. -/
inductive QStepsTo : QState → List QEvent → QState → Prop where
  | refl (s : QState) : QStepsTo s [] s
  | tail {s : QState} {e : QEvent} {s' : QState} {evs : List QEvent} {s'' : QState}
      (h1 : QStep s e s') (h2 : QStepsTo s' evs s'') : QStepsTo s (e :: evs) s''

/-- A state the component can reach from its initial state. -/
def QReachable (s : QState) : Prop :=
  ∃ evs, QStepsTo qInit evs s

/-- The identifiers of the items list. -/
def itemIds (items : List DItem) : List String :=
  items.map (fun it => it.id)

/-- Whether a status occupies the active slot. -/
def isActiveStatus (st : DStatus) : Bool :=
  st = .preparing || st = .downloading

/-- The number of items in status `preparing` or `downloading`. -/
def activeCount (items : List DItem) : Nat :=
  (items.filter (fun it => isActiveStatus it.status)).length

/-- The inductive invariant of the queue component: identifiers are unique,
at most one transfer is in flight, every `preparing`/`downloading` item is
the in-flight one, and every `queued` item is still in the pending queue. -/
def QInv (s : QState) : Prop :=
  (itemIds s.items).Nodup ∧
  s.inflight.length ≤ 1 ∧
  (∀ it ∈ s.items, isActiveStatus it.status = true → it.id ∈ s.inflight) ∧
  (∀ it ∈ s.items, it.status = .queued → it.id ∈ s.queue)

/-- A concrete 144p video-capable raw format (vcodec present, not "none"),
used as a test input for the format sort. -/
def rawVideo144 : RawFormat :=
  { format_id := some "160", ext := some "mp4", height := some 144,
    vcodec := some "avc1", acodec := some "none" }

/-- A concrete audio-only raw format (vcodec "none") whose numeric bitrate
20000 exceeds the video bonus threshold, used as a test input. -/
def rawAudio20000 : RawFormat :=
  { format_id := some "140", ext := some "m4a", abr := some 20000,
    vcodec := some "none", acodec := some "mp4a" }

/-- Two adjacent JavaScript-whitespace characters occur somewhere in the list. -/
def hasAdjacentWs : List Char → Bool
  | [] => false
  | [_] => false
  | a :: b :: t => (isJsWhitespace a && isJsWhitespace b) || hasAdjacentWs (b :: t)

/-- The statuses (or absence) an item settles into once it leaves the
active path: missing, `completed`, `error` or `cancelled`. -/
def TermStatusOpt (o : Option DStatus) : Prop :=
  o = none ∨ o = some DStatus.completed ∨ o = some DStatus.error ∨
    o = some DStatus.cancelled

/-! ## Lemmas: rate limiter -/

theorem noIp_sweep {ip : String} {m : RLMap} (h : NoIp ip m) (now : Nat) :
    NoIp ip (sweepExpired now m) := by
  intro kv hkv
  exact h kv (List.mem_of_mem_filter hkv)

theorem rlLookup_noIp {ip : String} {m : RLMap} (h : NoIp ip m) :
    rlLookup ip m = none := by
  unfold rlLookup
  have hf : m.find? (fun kv => decide (kv.1 = ip)) = none := by
    rw [List.find?_eq_none]
    intro kv hkv
    simp [h kv hkv]
  rw [hf]
  rfl

theorem rlLookup_append_self {ip : String} {l : RLMap} (h : NoIp ip l) (e : RLEntry) :
    rlLookup ip (l ++ [(ip, e)]) = some e := by
  induction l with
  | nil => simp [rlLookup, List.find?]
  | cons kv t ih =>
    have hkv : kv.1 ≠ ip := h kv (List.mem_cons_self kv t)
    have ht : NoIp ip t := fun x hx => h x (List.mem_cons_of_mem kv hx)
    simp only [rlLookup, List.cons_append, List.find?]
    rw [decide_eq_false hkv]
    exact ih ht

theorem sweep_append_live {ip : String} {l : RLMap} {e : RLEntry} {now : Nat}
    (h : now ≤ e.resetTime) :
    sweepExpired now (l ++ [(ip, e)]) = sweepExpired now l ++ [(ip, e)] := by
  unfold sweepExpired
  rw [List.filter_append]
  congr 1
  simp [Nat.not_lt.mpr h]

theorem sweep_append_expired {ip : String} {l : RLMap} {e : RLEntry} {now : Nat}
    (h : e.resetTime < now) :
    sweepExpired now (l ++ [(ip, e)]) = sweepExpired now l := by
  unfold sweepExpired
  rw [List.filter_append]
  simp [h]

theorem rlSet_append_self {ip : String} {l : RLMap} (h : NoIp ip l) (e e' : RLEntry) :
    rlSet ip e' (l ++ [(ip, e)]) = l ++ [(ip, e')] := by
  unfold rlSet
  have hany : (l ++ [(ip, e)]).any (fun kv => kv.1 = ip) = true := by
    rw [List.any_eq_true]
    exact ⟨(ip, e), by simp, by simp⟩
  rw [if_pos hany, List.map_append]
  congr 1
  · have hc : ∀ kv ∈ l, (if kv.1 = ip then (ip, e') else kv) = id kv := by
      intro kv hkv
      simp [h kv hkv]
    rw [List.map_congr_left hc, List.map_id]
  · simp

theorem rlSet_noIp {ip : String} {m : RLMap} (h : NoIp ip m) (e : RLEntry) :
    rlSet ip e m = m ++ [(ip, e)] := by
  unfold rlSet
  rw [if_neg]
  simp only [List.any_eq_true, not_exists, not_and]
  intro kv hkv
  simp [h kv hkv]

theorem checkRateLimitGen_fresh {maxReq w now : Nat} {ip : String} {m : RLMap}
    (h : NoIp ip m) :
    checkRateLimitGen maxReq w now ip m =
      (true, sweepExpired now m ++ [(ip, ⟨1, now + w⟩)]) := by
  unfold checkRateLimitGen
  rw [rlLookup_noIp (noIp_sweep h now)]
  rw [rlSet_noIp (noIp_sweep h now)]

theorem checkRateLimitGen_live_allow {maxReq w now c r : Nat} {ip : String} {l : RLMap}
    (h : NoIp ip l) (hnow : now ≤ r) (hc : c < maxReq) :
    checkRateLimitGen maxReq w now ip (l ++ [(ip, ⟨c, r⟩)]) =
      (true, sweepExpired now l ++ [(ip, ⟨c + 1, r⟩)]) := by
  unfold checkRateLimitGen
  rw [sweep_append_live hnow, rlLookup_append_self (noIp_sweep h now)]
  dsimp only
  rw [if_neg (by simpa using Nat.not_lt.mpr hnow), if_neg (by simpa using hc)]
  rw [rlSet_append_self (noIp_sweep h now)]

theorem checkRateLimitGen_live_deny {maxReq w now c r : Nat} {ip : String} {l : RLMap}
    (h : NoIp ip l) (hnow : now ≤ r) (hc : maxReq ≤ c) :
    checkRateLimitGen maxReq w now ip (l ++ [(ip, ⟨c, r⟩)]) =
      (false, sweepExpired now l ++ [(ip, ⟨c, r⟩)]) := by
  unfold checkRateLimitGen
  rw [sweep_append_live hnow, rlLookup_append_self (noIp_sweep h now)]
  dsimp only
  rw [if_neg (by simpa using Nat.not_lt.mpr hnow), if_pos (by simpa using hc)]

theorem checkRateLimitGen_expired {maxReq w now c r : Nat} {ip : String} {l : RLMap}
    (h : NoIp ip l) (hnow : r < now) :
    checkRateLimitGen maxReq w now ip (l ++ [(ip, ⟨c, r⟩)]) =
      (true, sweepExpired now l ++ [(ip, ⟨1, now + w⟩)]) := by
  unfold checkRateLimitGen
  rw [sweep_append_expired hnow, rlLookup_noIp (noIp_sweep h now)]
  rw [rlSet_noIp (noIp_sweep h now)]

theorem rlRun_live_allow {maxReq w r : Nat} {ip : String} (ts : List Nat) :
    ∀ (l : RLMap) (c : Nat), NoIp ip l →
    (∀ t ∈ ts, t ≤ r) → c + ts.length ≤ maxReq →
    ∃ l', NoIp ip l' ∧
      rlRun maxReq w ip (l ++ [(ip, ⟨c, r⟩)]) ts =
        (List.replicate ts.length true, l' ++ [(ip, ⟨c + ts.length, r⟩)]) := by
  induction ts with
  | nil =>
    intro l c hl _ _
    exact ⟨l, hl, by simp [rlRun]⟩
  | cons t ts ih =>
    intro l c hl hts hlen
    have ht : t ≤ r := hts t (List.mem_cons_self t ts)
    have hc : c < maxReq := by
      simp only [List.length_cons] at hlen
      omega
    obtain ⟨l', hl', hrun⟩ := ih (sweepExpired t l) (c + 1) (noIp_sweep hl t)
      (fun x hx => hts x (List.mem_cons_of_mem t hx))
      (by simp only [List.length_cons] at hlen; omega)
    refine ⟨l', hl', ?_⟩
    simp only [rlRun]
    rw [checkRateLimitGen_live_allow hl ht hc]
    dsimp only
    rw [hrun]
    have harith : c + 1 + ts.length = c + (ts.length + 1) := by omega
    rw [harith]
    simp [List.replicate_succ]

theorem mem_sweepExpired {now : Nat} {m : RLMap} {kv : String × RLEntry}
    (h : kv ∈ sweepExpired now m) : now ≤ kv.2.resetTime := by
  have := List.of_mem_filter h
  simpa [Nat.not_lt] using this

theorem mem_rlSet {ip : String} {e : RLEntry} {m : RLMap} {kv : String × RLEntry}
    (h : kv ∈ rlSet ip e m) : kv = (ip, e) ∨ kv ∈ m := by
  unfold rlSet at h
  by_cases hany : m.any (fun kv => kv.1 = ip) = true
  · rw [if_pos hany] at h
    obtain ⟨x, hx, hfx⟩ := List.mem_map.mp h
    by_cases hid : x.1 = ip
    · left
      rw [← hfx]
      simp [hid]
    · right
      rw [← hfx]
      simpa [hid] using hx
  · rw [if_neg hany] at h
    rcases List.mem_append.mp h with h1 | h1
    · exact Or.inr h1
    · left
      simpa using h1

theorem rlLookup_mem {ip : String} {m : RLMap} {e : RLEntry}
    (h : rlLookup ip m = some e) : ∃ k, (k, e) ∈ m := by
  unfold rlLookup at h
  obtain ⟨kv, hfind, hkv⟩ := Option.map_eq_some'.mp h
  refine ⟨kv.1, ?_⟩
  have hm := List.mem_of_find?_eq_some hfind
  rw [← hkv]
  simpa using hm

theorem checkRateLimitGen_sweeps {maxReq w now : Nat} {ip : String} {m : RLMap} :
    ∀ kv ∈ (checkRateLimitGen maxReq w now ip m).2, now ≤ kv.2.resetTime := by
  intro kv hkv
  unfold checkRateLimitGen at hkv
  rcases hlk : rlLookup ip (sweepExpired now m) with _ | userLimit
  · rw [hlk] at hkv
    dsimp only at hkv
    rcases mem_rlSet hkv with h | h
    · rw [h]
      exact Nat.le_add_right now w
    · exact mem_sweepExpired h
  · rw [hlk] at hkv
    dsimp only at hkv
    obtain ⟨k, hmem⟩ := rlLookup_mem hlk
    have hlive : now ≤ userLimit.resetTime := mem_sweepExpired hmem
    rw [if_neg (by simpa using Nat.not_lt.mpr hlive)] at hkv
    by_cases hge : userLimit.count ≥ maxReq
    · rw [if_pos hge] at hkv
      exact mem_sweepExpired hkv
    · rw [if_neg hge] at hkv
      rcases mem_rlSet hkv with h | h
      · rw [h]
        exact hlive
      · exact mem_sweepExpired h

/-- C1: on each call the rate-limit check first sweeps every stored entry
whose reset time has passed (every entry of the post-state has a reset time
at or after `now`); the metadata limiter is the generic check at 30 per
60000 ms and the download limiter at 10 per 60000 ms; and for a fresh key
the first call allows and installs count 1 with reset time `t0 + w`, the
next `maxReq - 1` calls within the window all allow (reaching the maximum
count), the `(maxReq + 1)`-th call within the window is denied without
incrementing, and a call strictly after the window's reset time allows
again and resets the counter to 1. -/
theorem rate_limiter_window_behavior (maxReq w t0 tN tR : Nat) (ip : String)
    (m : RLMap) (ts : List Nat)
    (hmax : 0 < maxReq) (hfresh : NoIp ip m)
    (hlen : ts.length = maxReq - 1) (hts : ∀ t ∈ ts, t ≤ t0 + w)
    (hN : tN ≤ t0 + w) (hR : t0 + w < tR) :
    (∀ kv ∈ (checkRateLimitGen maxReq w t0 ip m).2, t0 ≤ kv.2.resetTime) ∧
    checkRateLimit = checkRateLimitGen 30 60000 ∧
    checkDownloadRateLimit = checkRateLimitGen 10 60000 ∧
    ∃ l1 l2 l3, NoIp ip l1 ∧ NoIp ip l2 ∧ NoIp ip l3 ∧
      checkRateLimitGen maxReq w t0 ip m = (true, l1 ++ [(ip, ⟨1, t0 + w⟩)]) ∧
      rlRun maxReq w ip (l1 ++ [(ip, ⟨1, t0 + w⟩)]) ts =
        (List.replicate ts.length true, l2 ++ [(ip, ⟨maxReq, t0 + w⟩)]) ∧
      checkRateLimitGen maxReq w tN ip (l2 ++ [(ip, ⟨maxReq, t0 + w⟩)]) =
        (false, l3 ++ [(ip, ⟨maxReq, t0 + w⟩)]) ∧
      checkRateLimitGen maxReq w tR ip (l3 ++ [(ip, ⟨maxReq, t0 + w⟩)]) =
        (true, sweepExpired tR l3 ++ [(ip, ⟨1, tR + w⟩)]) := by
  refine ⟨checkRateLimitGen_sweeps, rfl, rfl, ?_⟩
  have h1 := @checkRateLimitGen_fresh maxReq w t0 ip m hfresh
  set l1 := sweepExpired t0 m with hl1def
  have hl1 : NoIp ip l1 := noIp_sweep hfresh t0
  obtain ⟨l2, hl2, hrun⟩ := @rlRun_live_allow maxReq w (t0 + w) ip ts l1 1 hl1 hts
    (by omega)
  have hcount : 1 + ts.length = maxReq := by omega
  rw [hcount] at hrun
  have hdeny := @checkRateLimitGen_live_deny maxReq w tN maxReq (t0 + w) ip l2 hl2 hN
    (Nat.le_refl maxReq)
  set l3 := sweepExpired tN l2 with hl3def
  have hl3 : NoIp ip l3 := noIp_sweep hl2 tN
  have hreset := @checkRateLimitGen_expired maxReq w tR maxReq (t0 + w) ip l3 hl3 hR
  exact ⟨l1, l2, l3, hl1, hl2, hl3, h1, hrun, hdeny, hreset⟩

/-- Witness for C1 at `maxReq = 2`, `window = 5`, a fresh key in the empty
map, calls at times 0 and 1 (allowed), 3 (denied) and 6 (allowed again). -/
theorem rate_limiter_window_behavior_witness :
    (∀ kv ∈ (checkRateLimitGen 2 5 0 "ip" []).2, 0 ≤ kv.2.resetTime) ∧
    checkRateLimit = checkRateLimitGen 30 60000 ∧
    checkDownloadRateLimit = checkRateLimitGen 10 60000 ∧
    ∃ l1 l2 l3, NoIp "ip" l1 ∧ NoIp "ip" l2 ∧ NoIp "ip" l3 ∧
      checkRateLimitGen 2 5 0 "ip" [] = (true, l1 ++ [("ip", ⟨1, 5⟩)]) ∧
      rlRun 2 5 "ip" (l1 ++ [("ip", ⟨1, 5⟩)]) [1] =
        (List.replicate 1 true, l2 ++ [("ip", ⟨2, 5⟩)]) ∧
      checkRateLimitGen 2 5 3 "ip" (l2 ++ [("ip", ⟨2, 5⟩)]) =
        (false, l3 ++ [("ip", ⟨2, 5⟩)]) ∧
      checkRateLimitGen 2 5 6 "ip" (l3 ++ [("ip", ⟨2, 5⟩)]) =
        (true, sweepExpired 6 l3 ++ [("ip", ⟨1, 11⟩)]) :=
  rate_limiter_window_behavior 2 5 0 3 6 "ip" [] [1] (by decide)
    (by simp [NoIp]) rfl (by decide) (by decide) (by decide)

/-! ## Lemmas: URL validation -/

theorem hasSub_length {hay needle : List Char} (h : hasSub hay needle = true) :
    needle.length ≤ hay.length := by
  induction hay with
  | nil =>
    unfold hasSub at h
    by_cases hp : needle.isPrefixOf ([] : List Char) = true
    · have := List.isPrefixOf_iff_prefix.mp hp
      simpa using this.length_le
    · rw [if_neg hp] at h
      simp at h
  | cons c t ih =>
    unfold hasSub at h
    by_cases hp : needle.isPrefixOf (c :: t) = true
    · exact (List.isPrefixOf_iff_prefix.mp hp).length_le
    · rw [if_neg hp] at h
      have := ih h
      simp only [List.length_cons]
      omega

theorem mem_of_contains {α : Type} [BEq α] [LawfulBEq α] {a : α} {l : List α}
    (h : l.contains a = true) : a ∈ l := by
  unfold List.contains at h
  exact List.elem_iff.mp h

theorem contains_of_mem {α : Type} [BEq α] [LawfulBEq α] {a : α} {l : List α}
    (h : a ∈ l) : l.contains a = true := by
  unfold List.contains
  exact List.elem_iff.mpr h

/-- C2: `validateYouTubeUrl` accepts a string exactly when it parses as an
http(s) URL whose hostname is on the fixed allow-list and whose parsed
pathname has one of the spec's accepted video-reference shapes (a watch
path, a shorts path, or any non-empty path on the short domain
`youtu.be`); and on the four reference inputs it accepts
`https://youtu.be/abc123` and `https://www.youtube.com/watch?v=abc123` and
rejects `https://example.com/watch?v=abc123` and
`https://www.youtube.com/`. -/
theorem validateYouTubeUrl_spec :
    (∀ url : String, validateYouTubeUrl url = true ↔
      ∃ u, parseURL url = some u ∧ u.hostname ∈ validHosts ∧ specAcceptedVideoRef u) ∧
    validateYouTubeUrl "https://youtu.be/abc123" = true ∧
    validateYouTubeUrl "https://www.youtube.com/watch?v=abc123" = true ∧
    validateYouTubeUrl "https://example.com/watch?v=abc123" = false ∧
    validateYouTubeUrl "https://www.youtube.com/" = false := by
  refine ⟨?_, by decide, by decide, by decide, by decide⟩
  intro url
  unfold validateYouTubeUrl
  rcases hp : parseURL url with _ | u
  · dsimp only
    constructor
    · intro hv
      exact absurd hv (by simp)
    · rintro ⟨u, hu, -⟩
      exact absurd hu (by simp)
  · dsimp only
    constructor
    · intro hv
      refine ⟨u, rfl, ?_⟩
      by_cases hh : validHosts.contains u.hostname = true
      · refine ⟨mem_of_contains hh, ?_⟩
        rw [if_neg (by rw [hh]; decide)] at hv
        by_cases hbe : u.hostname = "youtu.be"
        · rw [if_pos hbe] at hv
          exact Or.inr (Or.inr ⟨hbe, of_decide_eq_true hv⟩)
        · rw [if_neg hbe] at hv
          rcases (by simpa using hv :
              hasSubStr u.pathname "/watch" = true ∨
                hasSubStr u.pathname "/shorts/" = true) with h | h
          · exact Or.inl h
          · exact Or.inr (Or.inl h)
      · rw [if_pos (by simpa using hh)] at hv
        exact absurd hv (by simp)
    · rintro ⟨u', hu', hhost, hshape⟩
      obtain rfl : u = u' := by injection hu'
      have hc : validHosts.contains u.hostname = true := contains_of_mem hhost
      rw [if_neg (by rw [hc]; decide)]
      by_cases hbe : u.hostname = "youtu.be"
      · rw [if_pos hbe]
        apply decide_eq_true
        have hsl : u.pathname.length = u.pathname.data.length := rfl
        rcases hshape with h | h | h
        · have hlen := hasSub_length (show hasSub u.pathname.data "/watch".data = true by
            simpa [hasSubStr] using h)
          have h6 : ("/watch".data).length = 6 := rfl
          omega
        · have hlen := hasSub_length (show hasSub u.pathname.data "/shorts/".data = true by
            simpa [hasSubStr] using h)
          have h8 : ("/shorts/".data).length = 8 := rfl
          omega
        · exact h.2
      · rw [if_neg hbe]
        rcases hshape with h | h | h
        · simp [h]
        · simp [h]
        · exact absurd h.1 hbe

/-! ## Lemmas: format sorting -/

theorem formatLe_iff {a b : ProcessedFormat} :
    formatLe a b = true ↔ scoreOf b ≤ scoreOf a := by
  unfold formatLe
  simp

theorem formatLe_trans : ∀ a b c : ProcessedFormat,
    formatLe a b → formatLe b c → formatLe a c := by
  intro a b c hab hbc
  exact formatLe_iff.mpr (Nat.le_trans (formatLe_iff.mp hbc) (formatLe_iff.mp hab))

theorem formatLe_total : ∀ a b : ProcessedFormat,
    formatLe a b || formatLe b a := by
  intro a b
  rcases Nat.le_total (scoreOf b) (scoreOf a) with h | h
  · simp [formatLe_iff.mpr h]
  · simp [formatLe_iff.mpr h]

theorem processFormats_pairwise (formats : List RawFormat) :
    (processFormats formats).Pairwise (fun a b => scoreOf b ≤ scoreOf a) := by
  unfold processFormats
  have h := List.sorted_mergeSort formatLe_trans formatLe_total
    ((formats.filter formatKeep).map toProcessed)
  exact h.imp (fun hab => formatLe_iff.mp hab)

theorem scoreOf_video {f : ProcessedFormat} {h : Nat} (hv : isVideoCapable f = true)
    (hh : findNumBefore ['p'] f.quality.data = some h) : scoreOf f = h + 10000 := by
  unfold scoreOf getQualityScore
  unfold isVideoCapable at hv
  rw [if_pos hv, hh]

theorem scoreOf_audio {f : ProcessedFormat} (hv : isVideoCapable f = false) :
    scoreOf f = (findNumBefore ['k', 'b', 'p', 's'] f.quality.data).getD 0 := by
  unfold scoreOf getQualityScore
  unfold isVideoCapable at hv
  rw [if_neg (by rw [hv]; decide)]

/-- C3 counterexample: on the two-element format list holding a 144p
video-capable format (vcodec `avc1`) and an audio-only format (vcodec
`none`) with numeric bitrate 20000, `processFormats` ranks the audio-only
descriptor first — its bitrate score 20000 beats the video score
144 + 10000 — so a video-capable descriptor does NOT rank above every
audio-only descriptor regardless of the audio bitrate. -/
theorem processFormats_audio_outranks_video :
    (processFormats [rawVideo144, rawAudio20000]).map
      (fun f => (f.format_id, isVideoCapable f, scoreOf f)) =
      [(some "140", false, 20000), (some "160", true, 10144)] := by
  simp only [processFormats]
  rw [show ([rawVideo144, rawAudio20000].filter formatKeep).map toProcessed =
        [toProcessed rawVideo144, toProcessed rawAudio20000] from by decide]
  rw [List.mergeSort]
  simp [List.merge]
  decide

/-- C3 (amended): `processFormats` sorts descending by quality score
(pairwise, and positionally), a video-capable descriptor outscores an
audio-only one PROVIDED its quality exposes a height and the audio
descriptor's bitrate score is below height + 10000 (the fixed video bonus),
and within each class a larger height, respectively a larger bitrate,
yields a strictly larger score. -/
theorem processFormats_sorted_amended :
    (∀ formats, (processFormats formats).Pairwise
        (fun a b => scoreOf b ≤ scoreOf a)) ∧
    (∀ f g h, isVideoCapable f = true →
       findNumBefore ['p'] f.quality.data = some h →
       isVideoCapable g = false →
       (findNumBefore ['k', 'b', 'p', 's'] g.quality.data).getD 0 < h + 10000 →
       scoreOf g < scoreOf f) ∧
    (∀ f g hf hg, isVideoCapable f = true → isVideoCapable g = true →
       findNumBefore ['p'] f.quality.data = some hf →
       findNumBefore ['p'] g.quality.data = some hg →
       hg < hf → scoreOf g < scoreOf f) ∧
    (∀ f g rf rg, isVideoCapable f = false → isVideoCapable g = false →
       findNumBefore ['k', 'b', 'p', 's'] f.quality.data = some rf →
       findNumBefore ['k', 'b', 'p', 's'] g.quality.data = some rg →
       rg < rf → scoreOf g < scoreOf f) ∧
    (∀ formats i j, ∀ hij : i < j, ∀ hj : j < (processFormats formats).length,
       scoreOf ((processFormats formats).get ⟨j, hj⟩) ≤
         scoreOf ((processFormats formats).get ⟨i, Nat.lt_trans hij hj⟩)) := by
  refine ⟨processFormats_pairwise, ?_, ?_, ?_, ?_⟩
  · intro f g h hvf hhf hvg hbit
    rw [scoreOf_video hvf hhf, scoreOf_audio hvg]
    exact hbit
  · intro f g hf hg hvf hvg hhf hhg hlt
    rw [scoreOf_video hvf hhf, scoreOf_video hvg hhg]
    omega
  · intro f g rf rg hvf hvg hrf hrg hlt
    rw [scoreOf_audio hvf, scoreOf_audio hvg, hrf, hrg]
    simpa using hlt
  · intro formats i j hij hj
    have hp := processFormats_pairwise formats
    rw [List.pairwise_iff_get] at hp
    exact hp ⟨i, Nat.lt_trans hij hj⟩ ⟨j, hj⟩ hij

/-! ## C4: the 2 GB size guard -/

/-- C4: whenever the located output file (the first temp-directory entry
whose name contains the sanitized base filename) exceeds the 2 GB cap, the
handler answers the payload-too-large JSON (HTTP 413), the file is removed
from the directory, and the response is not a stream — the file's bytes are
never sent. -/
theorem oversized_file_deleted_not_streamed
    (tempDirFiles : List FSFile) (filename : String) (f : FSFile) (rest : List FSFile)
    (hloc : tempDirFiles.filter (fun g => hasSub g.name.data filename.data) = f :: rest)
    (hbig : f.size > MAX_FILE_SIZE) :
    locateAndServe tempDirFiles filename =
      (.jsonError 413 "File too large. Maximum size is 2GB.",
        tempDirFiles.filter (fun g => g.name ≠ f.name)) ∧
    (∀ g ∈ (locateAndServe tempDirFiles filename).2, g.name ≠ f.name) ∧
    (∀ fn sz ct, (locateAndServe tempDirFiles filename).1 ≠ .stream fn sz ct) := by
  have hmem : f ∈ tempDirFiles := by
    have : f ∈ tempDirFiles.filter (fun g => hasSub g.name.data filename.data) := by
      rw [hloc]
      exact List.mem_cons_self f rest
    exact List.mem_of_mem_filter this
  have hserve : locateAndServe tempDirFiles filename =
      (.jsonError 413 "File too large. Maximum size is 2GB.",
        tempDirFiles.filter (fun g => g.name ≠ f.name)) := by
    unfold locateAndServe
    rw [hloc]
    dsimp only
    have hex : (tempDirFiles.any fun g => g.name = f.name) = true :=
      List.any_eq_true.mpr ⟨f, hmem, by simp⟩
    rw [if_neg (by rw [hex]; decide), if_pos hbig]
  refine ⟨hserve, ?_, ?_⟩
  · rw [hserve]
    intro g hg
    have := List.of_mem_filter hg
    simpa using this
  · intro fn sz ct
    rw [hserve]
    simp

/-- Witness for C4: a directory holding one matching file one byte over the
cap; the handler deletes it and answers 413. -/
theorem oversized_file_deleted_not_streamed_witness :
    locateAndServe [⟨"v - c.mp4", 2097152001⟩] "v - c" =
      (.jsonError 413 "File too large. Maximum size is 2GB.",
        ([⟨"v - c.mp4", 2097152001⟩] : List FSFile).filter
          (fun g => g.name ≠ ("v - c.mp4" : String))) ∧
    (∀ g ∈ (locateAndServe [⟨"v - c.mp4", 2097152001⟩] "v - c").2,
       g.name ≠ ("v - c.mp4" : String)) ∧
    (∀ fn sz ct,
       (locateAndServe [⟨"v - c.mp4", 2097152001⟩] "v - c").1 ≠ .stream fn sz ct) :=
  oversized_file_deleted_not_streamed [⟨"v - c.mp4", 2097152001⟩] "v - c"
    ⟨"v - c.mp4", 2097152001⟩ [] (by decide) (by decide)

/-! ## C6: the format-id guard on the subprocess command line -/

/-- Helper: a truthy optional string is `some` of its default extraction. -/
theorem strTruthy_some {o : Option String} (h : strTruthy o = true) :
    o = some (o.getD "") := by
  cases o with
  | none => simp [strTruthy] at h
  | some s => rfl

/-- C6: the download handler builds a subprocess command only when the
request carries a format identifier that passes `validateFormatId`
(non-empty, at most 20 characters, letters/digits/hyphen/underscore only),
and the command interpolates exactly that identifier; with any other
format identifier the decision (once the earlier field checks pass) is the
invalid-input rejection 400 "Invalid format ID", so no command is ever
produced. -/
theorem format_id_guards_command :
    (∀ rl body td cmd fn, downloadPrecheck rl body td = .run cmd fn →
      ∃ b fid, body = some b ∧ b.formatId = some fid ∧ validateFormatId fid = true ∧
        cmd = "yt-dlp -f " ++ fid ++ " -o \"" ++ (td ++ "/" ++ fn ++ ".%(ext)s") ++
          "\" --no-warnings \"" ++ b.url.getD "" ++ "\"") ∧
    (∀ b td, strTruthy b.url = true → strTruthy b.formatId = true →
      validateFormatId (b.formatId.getD "") = false →
      downloadPrecheck true (some b) td = .reject 400 "Invalid format ID") := by
  constructor
  · intro rl body td cmd fn hrun
    unfold downloadPrecheck at hrun
    by_cases hrl : rl = true
    · rw [if_neg (by rw [hrl]; decide)] at hrun
      cases body with
      | none => exact absurd hrun (by simp)
      | some b =>
        dsimp only at hrun
        by_cases hu : strTruthy b.url = true
        · rw [if_neg (by rw [hu]; decide)] at hrun
          by_cases hfi : strTruthy b.formatId = true
          · rw [if_neg (by rw [hfi]; decide)] at hrun
            by_cases hval : validateFormatId (b.formatId.getD "") = true
            · rw [if_neg (by rw [hval]; decide)] at hrun
              refine ⟨b, b.formatId.getD "", rfl, strTruthy_some hfi, hval, ?_⟩
              have := hrun
              injection this with h1 h2
              rw [← h1, ← h2]
            · rw [if_pos (by simp [Bool.not_eq_true] at hval ⊢; exact hval)] at hrun
              exact absurd hrun (by simp)
          · rw [if_pos (by simp [Bool.not_eq_true] at hfi ⊢; exact hfi)] at hrun
            exact absurd hrun (by simp)
        · rw [if_pos (by simp [Bool.not_eq_true] at hu ⊢; exact hu)] at hrun
          exact absurd hrun (by simp)
    · rw [if_pos (by simp [Bool.not_eq_true] at hrl ⊢; exact hrl)] at hrun
      exact absurd hrun (by simp)
  · intro b td hu hfi hval
    unfold downloadPrecheck
    rw [if_neg (by decide)]
    dsimp only
    rw [if_neg (by rw [hu]; decide), if_neg (by rw [hfi]; decide),
      if_pos (by rw [hval]; decide)]

/-! ## C8: progress reporting -/

/-- C8: with a callback installed, a progress event whose total is not
advertised (length not computable) is reported as the constant
indeterminate marker 0, independent of the byte counts — never a
percentage fabricated from them — while an event with a computable length
is reported as the rounded percentage `loaded / total * 100`; without a
callback nothing is reported. -/
theorem progress_indeterminate_or_rounded :
    (∀ loaded total, onProgressEvent false loaded total true = some 0) ∧
    (∀ l1 t1 l2 t2,
      onProgressEvent false l1 t1 true = onProgressEvent false l2 t2 true) ∧
    (∀ loaded total,
      onProgressEvent true loaded total true = some (jsRound100 loaded total)) ∧
    (∀ lc loaded total, onProgressEvent lc loaded total false = none) ∧
    jsRound100 1 3 = 33 ∧ jsRound100 999 1000 = 100 ∧ jsRound100 50 200 = 25 := by
  refine ⟨fun _ _ => rfl, fun _ _ _ _ => rfl, fun _ _ => rfl, ?_, rfl, rfl, rfl⟩
  intro lc loaded total
  cases lc <;> rfl

/-! ## C9: content-type gate on the client -/

/-- Every MIME value of the server's extension table contains "video" or
"audio", so the client's content-type test accepts all of them. -/
theorem contentTypes_all_accepted :
    ∀ kv ∈ contentTypes, clientAcceptsContentType (some kv.2) = true := by
  decide

/-- C9: the client accepts the content type the server derives from a file
extension exactly when the extension is in the server's fixed table; any
extension outside the table is served as `application/octet-stream`, which
contains neither "video" nor "audio", and the client's 2xx load handler
then rejects with "Invalid file type received" (HTTP 500) and never saves. -/
theorem unknown_extension_never_saved :
    (∀ ext : String, clientAcceptsContentType (some (getContentType ext)) =
      contentTypes.any (fun kv => kv.1 = lowerAscii ext)) ∧
    (∀ status ct blobSize cd title channel se,
      200 ≤ status → status < 300 → clientAcceptsContentType ct = false →
      handleLoad status ct blobSize cd title channel se =
        .rejected "Invalid file type received" 500 ∧
      ∀ fn, handleLoad status ct blobSize cd title channel se ≠ .saved fn) ∧
    getContentType "bin" = "application/octet-stream" ∧
    clientAcceptsContentType (some "application/octet-stream") = false := by
  refine ⟨?_, ?_, by decide, by decide⟩
  · intro ext
    unfold getContentType
    rcases hf : contentTypes.find? (fun kv => kv.1 = lowerAscii ext) with _ | kv
    · have hnone := List.find?_eq_none.mp hf
      have hany : contentTypes.any (fun kv => kv.1 = lowerAscii ext) = false := by
        rw [← Bool.not_eq_true, List.any_eq_true]
        rintro ⟨x, hx, hpx⟩
        exact hnone x hx hpx
      rw [hf, hany]
      decide
    · have hmem := List.mem_of_find?_eq_some hf
      have hpkv := List.find?_some hf
      have hany : contentTypes.any (fun kv => kv.1 = lowerAscii ext) = true :=
        List.any_eq_true.mpr ⟨kv, hmem, hpkv⟩
      rw [hf, hany]
      exact contentTypes_all_accepted kv hmem
  · intro status ct blobSize cd title channel se h1 h2 hct
    have hmain : handleLoad status ct blobSize cd title channel se =
        .rejected "Invalid file type received" 500 := by
      unfold handleLoad
      rw [if_pos (by simp [h1, h2]), if_pos (by rw [hct]; decide)]
    exact ⟨hmain, fun fn => by rw [hmain]; simp⟩

/-! ## C10: the two filename sanitizers -/

theorem collapseWsAux_id {l : List Char}
    (hone : ∀ c ∈ l, isJsWhitespace c = true → c = ' ')
    (hadj : hasAdjacentWs l = false) : collapseWsAux false l = l := by
  induction l with
  | nil => rfl
  | cons c rest ih =>
    by_cases hc : isJsWhitespace c = true
    · have hsp : c = ' ' := hone c (List.mem_cons_self c rest) hc
      have htail : collapseWsAux true rest = collapseWsAux false rest := by
        cases rest with
        | nil => rfl
        | cons d t =>
          have hd : isJsWhitespace d = false := by
            unfold hasAdjacentWs at hadj
            rcases Bool.or_eq_false_iff.mp hadj with ⟨h1, -⟩
            rcases Bool.and_eq_false_iff.mp h1 with h | h
            · exact absurd h (by rw [hc]; decide)
            · exact h
          unfold collapseWsAux
          rw [if_neg (by rw [hd]; decide), if_neg (by rw [hd]; decide)]
      have hrest : collapseWsAux false rest = rest := by
        apply ih
        · intro x hx hwx
          exact hone x (List.mem_cons_of_mem c hx) hwx
        · cases rest with
          | nil => rfl
          | cons d t =>
            unfold hasAdjacentWs at hadj
            exact (Bool.or_eq_false_iff.mp hadj).2
      unfold collapseWsAux
      rw [if_pos hc]
      rw [if_neg (by decide)]
      rw [htail, hrest, hsp]
    · have hrest : collapseWsAux false rest = rest := by
        apply ih
        · intro x hx hwx
          exact hone x (List.mem_cons_of_mem c hx) hwx
        · cases rest with
          | nil => rfl
          | cons d t =>
            unfold hasAdjacentWs at hadj
            exact (Bool.or_eq_false_iff.mp hadj).2
      unfold collapseWsAux
      rw [if_neg hc]
      rw [hrest]

theorem printable_ws_is_space {c : Char} (hp : isPrintableAscii c = true)
    (hw : isJsWhitespace c = true) : c = ' ' := by
  unfold isPrintableAscii at hp
  unfold isJsWhitespace at hw
  simp only [Bool.and_eq_true, Bool.or_eq_true, decide_eq_true_eq] at hp hw
  obtain ⟨h1, h2⟩ := hp
  rcases hw with ((((((((((((((h | h) | h) | h) | h) | h) | h) | h) | h) |
    h) | h) | h) | h) | h) | h)
  · exact h
  · rw [h] at h1
    exact absurd h1 (by decide)
  · rw [h] at h1
    exact absurd h1 (by decide)
  · rw [h] at h1
    exact absurd h1 (by decide)
  · omega
  · omega
  · omega
  · omega
  · obtain ⟨ha, hb⟩ := h
    omega
  · omega
  · omega
  · omega
  · omega
  · omega
  · omega

/-- C10 counterexample: on the input "a  b" (a run of two internal spaces)
the server-side sanitizer collapses the run to one space while the
client-side sanitizer keeps it, so the two functions disagree. -/
theorem sanitizers_disagree_on_double_space :
    sanitizeFilename "a  b" = "a b" ∧ sanitizeFilenameClient "a  b" = "a  b" ∧
    sanitizeFilename "a  b" ≠ sanitizeFilenameClient "a  b" := by
  refine ⟨by decide, by decide, by decide⟩

/-- C10 (amended): the client-side and server-side filename sanitizers
agree exactly in the absence of internal whitespace runs: on every input
whose filtered content (invalid characters and non-printable-ASCII
removed) has no two adjacent whitespace characters, the two compute the
same output; in general the server additionally collapses each whitespace
run to a single space, which the client does not. -/
theorem sanitizers_agree_without_ws_runs (s : String)
    (h : hasAdjacentWs ((s.data.filter
      (fun c => !(invalidFilenameChars.contains c))).filter isPrintableAscii) = false) :
    sanitizeFilenameClient s = sanitizeFilename s := by
  have hone : ∀ c ∈ (s.data.filter
      (fun c => !(invalidFilenameChars.contains c))).filter isPrintableAscii,
      isJsWhitespace c = true → c = ' ' := by
    intro c hc hw
    exact printable_ws_is_space (List.of_mem_filter hc) hw
  have hcoll : collapseWs ((s.data.filter
      (fun c => !(invalidFilenameChars.contains c))).filter isPrintableAscii) =
      (s.data.filter (fun c => !(invalidFilenameChars.contains c))).filter
        isPrintableAscii := by
    unfold collapseWs
    exact collapseWsAux_id hone h
  unfold sanitizeFilenameClient sanitizeFilename
  rw [hcoll]

/-- Witness for C10's amended claim on a representative title without
whitespace runs. -/
theorem sanitizers_agree_without_ws_runs_witness :
    sanitizeFilenameClient "My Video: Part 2? (HD)" =
      sanitizeFilename "My Video: Part 2? (HD)" :=
  sanitizers_agree_without_ws_runs "My Video: Part 2? (HD)" (by decide)

/-! ## Lemmas: the download queue state machine -/

theorem itemIds_updateItem {items : List DItem} {id : String} {f : DItem → DItem}
    (hf : ∀ it, (f it).id = it.id) :
    itemIds (updateItem items id f) = itemIds items := by
  unfold itemIds updateItem
  rw [List.map_map]
  apply List.map_congr_left
  intro it _
  by_cases h : it.id = id
  · simp [h, hf]
  · simp [h]

theorem mem_updateItem {items : List DItem} {id : String} {f : DItem → DItem}
    {it' : DItem} (h : it' ∈ updateItem items id f) :
    ∃ it ∈ items, it' = if it.id = id then f it else it := by
  unfold updateItem at h
  obtain ⟨it, hit, hfit⟩ := List.mem_map.mp h
  exact ⟨it, hit, hfit.symm⟩

theorem findItem_updateItem_self {items : List DItem} {id : String} {f : DItem → DItem}
    (hf : ∀ it, (f it).id = it.id) :
    findItem (updateItem items id f) id = (findItem items id).map f := by
  induction items with
  | nil => rfl
  | cons a t ih =>
    unfold updateItem findItem
    simp only [List.map_cons, List.find?_cons]
    by_cases h : a.id = id
    · rw [if_pos h]
      rw [show (decide ((f a).id = id)) = true from decide_eq_true (by rw [hf a]; exact h)]
      rw [show (decide (a.id = id)) = true from decide_eq_true h]
      rfl
    · rw [if_neg h]
      rw [show (decide (a.id = id)) = false from decide_eq_false h]
      exact ih

theorem findItem_updateItem_ne {items : List DItem} {id id' : String} {f : DItem → DItem}
    (hf : ∀ it, (f it).id = it.id) (h : id' ≠ id) :
    findItem (updateItem items id f) id' = findItem items id' := by
  induction items with
  | nil => rfl
  | cons a t ih =>
    unfold updateItem findItem
    simp only [List.map_cons, List.find?_cons]
    by_cases ha : a.id = id
    · rw [if_pos ha]
      rw [show (decide ((f a).id = id')) = false from decide_eq_false (by
        rw [hf a, ha]
        exact fun hx => h hx.symm)]
      rw [show (decide (a.id = id')) = false from decide_eq_false (by
        rw [ha]
        exact fun hx => h hx.symm)]
      exact ih
    · rw [if_neg ha]
      by_cases hb : a.id = id'
      · rw [show (decide (a.id = id')) = true from decide_eq_true hb]
      · rw [show (decide (a.id = id')) = false from decide_eq_false hb]
        exact ih

theorem findItem_eq_none_iff {items : List DItem} {id : String} :
    findItem items id = none ↔ ∀ it ∈ items, it.id ≠ id := by
  unfold findItem
  rw [List.find?_eq_none]
  constructor
  · intro h it hit
    simpa using h it hit
  · intro h it hit
    simpa using h it hit

theorem findItem_mem {items : List DItem} {id : String} {it : DItem}
    (h : findItem items id = some it) : it ∈ items ∧ it.id = id := by
  unfold findItem at h
  refine ⟨List.mem_of_find?_eq_some h, ?_⟩
  have := List.find?_some h
  simpa using this

theorem findItem_of_mem_nodup {items : List DItem} {it : DItem}
    (hnd : (itemIds items).Nodup) (hit : it ∈ items) :
    findItem items it.id = some it := by
  induction items with
  | nil => simp at hit
  | cons a t ih =>
    unfold findItem
    rw [List.find?_cons]
    rcases List.mem_cons.mp hit with h | h
    · rw [h]
      simp
    · have hne : a.id ≠ it.id := by
        unfold itemIds at hnd
        rw [List.map_cons, List.nodup_cons] at hnd
        intro he
        exact hnd.1 (he ▸ List.mem_map_of_mem (fun x => x.id) h)
      rw [show (decide (a.id = it.id)) = false from decide_eq_false hne]
      have hnd' : (itemIds t).Nodup := by
        unfold itemIds at hnd ⊢
        rw [List.map_cons, List.nodup_cons] at hnd
        exact hnd.2
      exact ih hnd' h

theorem findItem_filter {items : List DItem} {id : String} {it : DItem}
    {p : DItem → Bool}
    (hnd : (itemIds items).Nodup) (hit : findItem items id = some it) :
    findItem (items.filter p) id = if p it then some it else none := by
  induction items with
  | nil => simp [findItem] at hit
  | cons a t ih =>
    have hnda : a.id ∉ t.map (fun x => x.id) := by
      unfold itemIds at hnd
      rw [List.map_cons, List.nodup_cons] at hnd
      exact hnd.1
    have hndt : (itemIds t).Nodup := by
      unfold itemIds at hnd ⊢
      rw [List.map_cons, List.nodup_cons] at hnd
      exact hnd.2
    unfold findItem at hit
    rw [List.find?_cons] at hit
    by_cases ha : a.id = id
    · rw [show (decide (a.id = id)) = true from decide_eq_true ha] at hit
      have hae : a = it := by injection hit
      subst hae
      by_cases hpa : p a = true
      · rw [List.filter_cons_of_pos hpa]
        unfold findItem
        rw [List.find?_cons]
        rw [show (decide (a.id = id)) = true from decide_eq_true ha]
        rw [if_pos hpa]
      · rw [List.filter_cons_of_neg (by simpa using hpa)]
        rw [if_neg hpa]
        rw [findItem_eq_none_iff]
        intro x hx hxid
        have hxmem := List.mem_of_mem_filter hx
        exact hnda (by
          rw [← ha] at hxid
          exact hxid ▸ List.mem_map_of_mem (fun y => y.id) hxmem)
    · rw [show (decide (a.id = id)) = false from decide_eq_false ha] at hit
      by_cases hpa : p a = true
      · rw [List.filter_cons_of_pos hpa]
        unfold findItem
        rw [List.find?_cons]
        rw [show (decide (a.id = id)) = false from decide_eq_false ha]
        exact ih hndt hit
      · rw [List.filter_cons_of_neg (by simpa using hpa)]
        exact ih hndt hit

theorem findItem_none_filter {items : List DItem} {id : String} {p : DItem → Bool}
    (h : findItem items id = none) : findItem (items.filter p) id = none := by
  rw [findItem_eq_none_iff] at h ⊢
  intro it hit
  exact h it (List.mem_of_mem_filter hit)

theorem itemIds_setStatus {items : List DItem} {id : String} {st : DStatus} :
    itemIds (setStatus items id st) = itemIds items :=
  itemIds_updateItem (fun _ => rfl)

theorem itemIds_setProgress {items : List DItem} {id : String} {p : Nat} :
    itemIds (setProgress items id p) = itemIds items :=
  itemIds_updateItem (fun _ => rfl)

theorem itemIds_setError {items : List DItem} {id : String} {msg : String} :
    itemIds (setError items id msg) = itemIds items :=
  itemIds_updateItem (fun _ => rfl)

theorem itemIds_resetToQueued {items : List DItem} {id : String} :
    itemIds (resetToQueued items id) = itemIds items :=
  itemIds_updateItem (fun _ => rfl)

theorem findItem_setStatus_self {items : List DItem} {id : String} {st : DStatus} :
    findItem (setStatus items id st) id =
      (findItem items id).map (fun it => { it with status := st }) :=
  findItem_updateItem_self (fun _ => rfl)

theorem activeCount_eq_zero {items : List DItem}
    (hin : ∀ it ∈ items, isActiveStatus it.status = true → False) :
    activeCount items = 0 := by
  unfold activeCount
  have : items.filter (fun it => isActiveStatus it.status) = [] := by
    rw [List.filter_eq_nil_iff]
    intro it hit
    intro hp
    exact hin it hit hp
  rw [this]
  rfl

theorem activeCount_le_one {items : List DItem} {inflight : List String}
    (hnd : (itemIds items).Nodup)
    (hin : ∀ it ∈ items, isActiveStatus it.status = true → it.id ∈ inflight)
    (hlen : inflight.length ≤ 1) : activeCount items ≤ 1 := by
  unfold activeCount
  rcases hfil : items.filter (fun it => isActiveStatus it.status) with _ | ⟨a, tl⟩
  · rw [hfil]
    simp
  · rcases tl with _ | ⟨b, t⟩
    · rw [hfil]
      simp
    · exfalso
      have hamem : a ∈ items.filter (fun it => isActiveStatus it.status) := by
        rw [hfil]
        exact List.mem_cons_self a (b :: t)
      have hbmem : b ∈ items.filter (fun it => isActiveStatus it.status) := by
        rw [hfil]
        exact List.mem_cons_of_mem a (List.mem_cons_self b t)
      have ha := hin a (List.mem_of_mem_filter hamem)
        (@List.of_mem_filter DItem (fun it => isActiveStatus it.status) _ _ hamem)
      have hb := hin b (List.mem_of_mem_filter hbmem)
        (@List.of_mem_filter DItem (fun it => isActiveStatus it.status) _ _ hbmem)
      have hids : ((items.filter (fun it => isActiveStatus it.status)).map
          (fun it => it.id)).Nodup :=
        List.Nodup.sublist (List.Sublist.map (fun it => it.id)
          (List.filter_sublist items)) hnd
      rw [hfil] at hids
      simp only [List.map_cons, List.nodup_cons] at hids
      have hne : a.id ≠ b.id := by
        intro he
        exact hids.1 (by rw [he]; exact List.mem_cons_self _ _)
      cases inflight with
      | nil => simp at ha
      | cons x xs =>
        cases xs with
        | nil =>
          simp only [List.mem_singleton] at ha hb
          exact hne (ha.trans hb.symm)
        | cons y ys => simp at hlen

theorem qinv_step {s : QState} {e : QEvent} {s' : QState}
    (hstep : QStep s e s') (hinv : QInv s) : QInv s' := by
  obtain ⟨hnd, hlen, hact, hque⟩ := hinv
  cases hstep with
  | @enqueue id hfresh =>
    refine ⟨?_, hlen, ?_, ?_⟩
    · dsimp only
      unfold itemIds
      rw [List.map_cons, List.nodup_cons]
      refine ⟨?_, hnd⟩
      rw [findItem_eq_none_iff] at hfresh
      intro hmem
      obtain ⟨it, hit, hide⟩ := List.mem_map.mp hmem
      exact hfresh it hit hide
    · dsimp only
      intro it hit hact'
      rcases List.mem_cons.mp hit with h | h
      · rw [h] at hact'
        simp [isActiveStatus] at hact'
      · exact hact it h hact'
    · dsimp only
      intro it hit hq
      rcases List.mem_cons.mp hit with h | h
      · rw [h]
        exact List.mem_append_right _ (List.mem_singleton.mpr rfl)
      · exact List.mem_append_left _ (hque it h hq)
  | @admitHead id rest it hq hslot hit hst =>
    refine ⟨?_, by simp, ?_, ?_⟩
    · dsimp only
      rw [itemIds_setStatus]
      exact hnd
    · dsimp only
      intro it' hit' hact'
      obtain ⟨orig, horig, hcase⟩ := mem_updateItem hit'
      by_cases hoid : orig.id = id
      · rw [if_pos hoid] at hcase
        rw [hcase]
        simp [hoid]
      · rw [if_neg hoid] at hcase
        subst hcase
        have := hact it' horig hact'
        rw [hslot] at this
        simp at this
    · dsimp only
      intro it' hit' hq'
      obtain ⟨orig, horig, hcase⟩ := mem_updateItem hit'
      by_cases hoid : orig.id = id
      · rw [if_pos hoid] at hcase
        rw [hcase] at hq'
        simp at hq'
      · rw [if_neg hoid] at hcase
        subst hcase
        have := hque it' horig hq'
        rw [hq] at this
        rcases List.mem_cons.mp this with h | h
        · exact absurd h hoid
        · exact h
  | @skip id rest hq hslot hno =>
    refine ⟨hnd, hlen, hact, ?_⟩
    dsimp only
    intro it hit hqst
    have := hque it hit hqst
    rw [hq] at this
    rcases List.mem_cons.mp this with h | h
    · exfalso
      have hfind : findItem s.items id = some it := by
        rw [← h]
        exact findItem_of_mem_nodup hnd hit
      exact hno it hfind hqst
    · exact h
  | @sendReq id it hin hit hst =>
    refine ⟨?_, hlen, ?_, ?_⟩
    · dsimp only
      rw [itemIds_setStatus]
      exact hnd
    · dsimp only
      intro it' hit' hact'
      obtain ⟨orig, horig, hcase⟩ := mem_updateItem hit'
      by_cases hoid : orig.id = id
      · rw [if_pos hoid] at hcase
        rw [hcase]
        simpa [hoid] using hin
      · rw [if_neg hoid] at hcase
        subst hcase
        exact hact it' horig hact'
    · dsimp only
      intro it' hit' hq'
      obtain ⟨orig, horig, hcase⟩ := mem_updateItem hit'
      by_cases hoid : orig.id = id
      · rw [if_pos hoid] at hcase
        rw [hcase] at hq'
        simp at hq'
      · rw [if_neg hoid] at hcase
        subst hcase
        exact hque it' horig hq'
  | @progressEv id p hin =>
    refine ⟨?_, hlen, ?_, ?_⟩
    · dsimp only
      rw [itemIds_setProgress]
      exact hnd
    · dsimp only
      intro it' hit' hact'
      obtain ⟨orig, horig, hcase⟩ := mem_updateItem hit'
      by_cases hoid : orig.id = id
      · rw [if_pos hoid] at hcase
        rw [hcase] at hact' ⊢
        simp only at hact' ⊢
        simpa [hoid] using hact orig horig hact'
      · rw [if_neg hoid] at hcase
        subst hcase
        exact hact it' horig hact'
    · dsimp only
      intro it' hit' hq'
      obtain ⟨orig, horig, hcase⟩ := mem_updateItem hit'
      by_cases hoid : orig.id = id
      · rw [if_pos hoid] at hcase
        rw [hcase] at hq' ⊢
        simp only at hq' ⊢
        exact hque orig horig hq'
      · rw [if_neg hoid] at hcase
        subst hcase
        exact hque it' horig hq'
  | @finishOk id hin =>
    refine ⟨?_, ?_, ?_, ?_⟩
    · dsimp only
      rw [itemIds_setStatus]
      exact hnd
    · exact Nat.le_trans (List.Sublist.length_le (List.erase_sublist id s.inflight)) hlen
    · dsimp only
      intro it' hit' hact'
      obtain ⟨orig, horig, hcase⟩ := mem_updateItem hit'
      by_cases hoid : orig.id = id
      · rw [if_pos hoid] at hcase
        rw [hcase] at hact'
        simp [isActiveStatus] at hact'
      · rw [if_neg hoid] at hcase
        subst hcase
        exact (List.mem_erase_of_ne hoid).mpr (hact it' horig hact')
    · dsimp only
      intro it' hit' hq'
      obtain ⟨orig, horig, hcase⟩ := mem_updateItem hit'
      by_cases hoid : orig.id = id
      · rw [if_pos hoid] at hcase
        rw [hcase] at hq'
        simp at hq'
      · rw [if_neg hoid] at hcase
        subst hcase
        exact hque it' horig hq'
  | @finishErr id msg hin =>
    refine ⟨?_, ?_, ?_, ?_⟩
    · dsimp only
      rw [itemIds_setError]
      exact hnd
    · exact Nat.le_trans (List.Sublist.length_le (List.erase_sublist id s.inflight)) hlen
    · dsimp only
      intro it' hit' hact'
      obtain ⟨orig, horig, hcase⟩ := mem_updateItem hit'
      by_cases hoid : orig.id = id
      · rw [if_pos hoid] at hcase
        rw [hcase] at hact'
        simp [isActiveStatus] at hact'
      · rw [if_neg hoid] at hcase
        subst hcase
        exact (List.mem_erase_of_ne hoid).mpr (hact it' horig hact')
    · dsimp only
      intro it' hit' hq'
      obtain ⟨orig, horig, hcase⟩ := mem_updateItem hit'
      by_cases hoid : orig.id = id
      · rw [if_pos hoid] at hcase
        rw [hcase] at hq'
        simp at hq'
      · rw [if_neg hoid] at hcase
        subst hcase
        exact hque it' horig hq'
  | @finishCancel id hin =>
    refine ⟨?_, ?_, ?_, ?_⟩
    · dsimp only
      rw [itemIds_setStatus]
      exact hnd
    · exact Nat.le_trans (List.Sublist.length_le (List.erase_sublist id s.inflight)) hlen
    · dsimp only
      intro it' hit' hact'
      obtain ⟨orig, horig, hcase⟩ := mem_updateItem hit'
      by_cases hoid : orig.id = id
      · rw [if_pos hoid] at hcase
        rw [hcase] at hact'
        simp [isActiveStatus] at hact'
      · rw [if_neg hoid] at hcase
        subst hcase
        exact (List.mem_erase_of_ne hoid).mpr (hact it' horig hact')
    · dsimp only
      intro it' hit' hq'
      obtain ⟨orig, horig, hcase⟩ := mem_updateItem hit'
      by_cases hoid : orig.id = id
      · rw [if_pos hoid] at hcase
        rw [hcase] at hq'
        simp at hq'
      · rw [if_neg hoid] at hcase
        subst hcase
        exact hque it' horig hq'
  | @cancelQueued id it hit hst =>
    refine ⟨?_, hlen, ?_, ?_⟩
    · dsimp only
      rw [itemIds_setStatus]
      exact hnd
    · dsimp only
      intro it' hit' hact'
      obtain ⟨orig, horig, hcase⟩ := mem_updateItem hit'
      by_cases hoid : orig.id = id
      · rw [if_pos hoid] at hcase
        rw [hcase] at hact'
        simp [isActiveStatus] at hact'
      · rw [if_neg hoid] at hcase
        subst hcase
        exact hact it' horig hact'
    · dsimp only
      intro it' hit' hq'
      obtain ⟨orig, horig, hcase⟩ := mem_updateItem hit'
      by_cases hoid : orig.id = id
      · rw [if_pos hoid] at hcase
        rw [hcase] at hq'
        simp at hq'
      · rw [if_neg hoid] at hcase
        subst hcase
        refine List.mem_filter.mpr ⟨hque it' horig hq', ?_⟩
        simp [hoid]
  | @retry id it hit =>
    refine ⟨?_, hlen, ?_, ?_⟩
    · dsimp only
      rw [itemIds_resetToQueued]
      exact hnd
    · dsimp only
      intro it' hit' hact'
      obtain ⟨orig, horig, hcase⟩ := mem_updateItem hit'
      by_cases hoid : orig.id = id
      · rw [if_pos hoid] at hcase
        rw [hcase] at hact'
        simp [isActiveStatus] at hact'
      · rw [if_neg hoid] at hcase
        subst hcase
        exact hact it' horig hact'
    · dsimp only
      intro it' hit' hq'
      obtain ⟨orig, horig, hcase⟩ := mem_updateItem hit'
      by_cases hoid : orig.id = id
      · rw [if_pos hoid] at hcase
        rw [hcase]
        simp [hoid]
      · rw [if_neg hoid] at hcase
        subst hcase
        exact List.mem_append_left _ (hque it' horig hq')
  | clearCompleted =>
    refine ⟨?_, hlen, ?_, ?_⟩
    · dsimp only
      unfold itemIds at hnd ⊢
      exact List.Nodup.sublist (List.Sublist.map (fun it => it.id)
        (List.filter_sublist s.items)) hnd
    · dsimp only
      intro it hit hact'
      exact hact it (List.mem_of_mem_filter hit) hact'
    · dsimp only
      intro it hit hq'
      exact hque it (List.mem_of_mem_filter hit) hq'

theorem qinv_stepsTo {s : QState} {evs : List QEvent} {s' : QState}
    (h : QStepsTo s evs s') (hinv : QInv s) : QInv s' := by
  induction h with
  | refl s => exact hinv
  | tail h1 _ ih => exact ih (qinv_step h1 hinv)

theorem qinv_qInit : QInv qInit := by
  refine ⟨?_, ?_, ?_, ?_⟩
  · simp [qInit, itemIds]
  · simp [qInit]
  · intro it hit
    simp [qInit] at hit
  · intro it hit
    simp [qInit] at hit

theorem qinv_reachable {s : QState} (h : QReachable s) : QInv s := by
  obtain ⟨evs, hsteps⟩ := h
  exact qinv_stepsTo hsteps qinv_qInit

theorem findItem_setStatus_ne {items : List DItem} {id id' : String} {st : DStatus}
    (h : id' ≠ id) : findItem (setStatus items id st) id' = findItem items id' :=
  findItem_updateItem_ne (fun _ => rfl) h

theorem findItem_setProgress_self {items : List DItem} {id : String} {p : Nat} :
    findItem (setProgress items id p) id =
      (findItem items id).map (fun it => { it with progress := some p }) :=
  findItem_updateItem_self (fun _ => rfl)

theorem findItem_setProgress_ne {items : List DItem} {id id' : String} {p : Nat}
    (h : id' ≠ id) : findItem (setProgress items id p) id' = findItem items id' :=
  findItem_updateItem_ne (fun _ => rfl) h

theorem findItem_setError_self {items : List DItem} {id : String} {msg : String} :
    findItem (setError items id msg) id =
      (findItem items id).map
        (fun it => { it with status := DStatus.error, errorMsg := some msg }) :=
  findItem_updateItem_self (fun _ => rfl)

theorem findItem_setError_ne {items : List DItem} {id id' : String} {msg : String}
    (h : id' ≠ id) : findItem (setError items id msg) id' = findItem items id' :=
  findItem_updateItem_ne (fun _ => rfl) h

theorem findItem_resetToQueued_ne {items : List DItem} {id id' : String}
    (h : id' ≠ id) : findItem (resetToQueued items id) id' = findItem items id' :=
  findItem_updateItem_ne (fun _ => rfl) h

theorem term_status_step {s : QState} {e : QEvent} {s1 : QState} {id : String}
    (h1 : QStep s e s1) (hinv : QInv s) (hterm : TermStatusOpt (statusOf s id))
    (hretry : e ≠ QEvent.retry id) (henq : e ≠ QEvent.enqueue id) :
    TermStatusOpt (statusOf s1 id) := by
  obtain ⟨hnd, hlen, hact, hque⟩ := hinv
  cases h1 with
  | @enqueue id2 hfresh =>
    have hne : id2 ≠ id := fun he => henq (by rw [he])
    unfold statusOf at hterm ⊢
    dsimp only
    unfold findItem at hterm ⊢
    rw [List.find?_cons]
    rw [show (decide ((⟨id2, .queued, none, none⟩ : DItem).id = id)) = false from
      decide_eq_false (by simpa using hne)]
    exact hterm
  | @admitHead id2 rest it hq hslot hit hst =>
    by_cases hne : id2 = id
    · subst hne
      exfalso
      unfold statusOf at hterm
      rw [hit] at hterm
      unfold TermStatusOpt at hterm
      simp only [Option.map_some'] at hterm
      rw [hst] at hterm
      rcases hterm with h | h | h | h <;> simp at h
    · unfold statusOf at hterm ⊢
      dsimp only
      rw [findItem_setStatus_ne (fun he => hne he.symm)]
      exact hterm
  | @skip id2 rest hq hslot hno =>
    exact hterm
  | @sendReq id2 it hin hit hst =>
    by_cases hne : id2 = id
    · subst hne
      exfalso
      unfold statusOf at hterm
      rw [hit] at hterm
      unfold TermStatusOpt at hterm
      simp only [Option.map_some'] at hterm
      rw [hst] at hterm
      rcases hterm with h | h | h | h <;> simp at h
    · unfold statusOf at hterm ⊢
      dsimp only
      rw [findItem_setStatus_ne (fun he => hne he.symm)]
      exact hterm
  | @progressEv id2 p hin =>
    by_cases hne : id2 = id
    · subst hne
      unfold statusOf at hterm ⊢
      dsimp only
      rw [findItem_setProgress_self]
      rcases hfi : findItem s.items id2 with _ | it0
      · rw [hfi] at hterm
        exact hterm
      · rw [hfi] at hterm
        simp only [Option.map_some'] at hterm
        exact hterm
    · unfold statusOf at hterm ⊢
      dsimp only
      rw [findItem_setProgress_ne (fun he => hne he.symm)]
      exact hterm
  | @finishOk id2 hin =>
    by_cases hne : id2 = id
    · subst hne
      unfold statusOf
      dsimp only
      rw [findItem_setStatus_self]
      rcases hfi : findItem s.items id2 with _ | it0
      · exact Or.inl rfl
      · exact Or.inr (Or.inl rfl)
    · unfold statusOf at hterm ⊢
      dsimp only
      rw [findItem_setStatus_ne (fun he => hne he.symm)]
      exact hterm
  | @finishErr id2 msg hin =>
    by_cases hne : id2 = id
    · subst hne
      unfold statusOf
      dsimp only
      rw [findItem_setError_self]
      rcases hfi : findItem s.items id2 with _ | it0
      · exact Or.inl rfl
      · exact Or.inr (Or.inr (Or.inl rfl))
    · unfold statusOf at hterm ⊢
      dsimp only
      rw [findItem_setError_ne (fun he => hne he.symm)]
      exact hterm
  | @finishCancel id2 hin =>
    by_cases hne : id2 = id
    · subst hne
      unfold statusOf
      dsimp only
      rw [findItem_setStatus_self]
      rcases hfi : findItem s.items id2 with _ | it0
      · exact Or.inl rfl
      · exact Or.inr (Or.inr (Or.inr rfl))
    · unfold statusOf at hterm ⊢
      dsimp only
      rw [findItem_setStatus_ne (fun he => hne he.symm)]
      exact hterm
  | @cancelQueued id2 it hit hst =>
    by_cases hne : id2 = id
    · subst hne
      exfalso
      unfold statusOf at hterm
      rw [hit] at hterm
      unfold TermStatusOpt at hterm
      simp only [Option.map_some'] at hterm
      rw [hst] at hterm
      rcases hterm with h | h | h | h <;> simp at h
    · unfold statusOf at hterm ⊢
      dsimp only
      rw [findItem_setStatus_ne (fun he => hne he.symm)]
      exact hterm
  | @retry id2 it hit =>
    have hne : id2 ≠ id := fun he => hretry (by rw [he])
    unfold statusOf at hterm ⊢
    dsimp only
    rw [findItem_resetToQueued_ne (fun he => hne he.symm)]
    exact hterm
  | clearCompleted =>
    unfold TermStatusOpt at hterm
    rcases hterm with h | h | h | h
    · have hnone : findItem s.items id = none := by
        unfold statusOf at h
        exact Option.map_eq_none'.mp h
      refine Or.inl ?_
      unfold statusOf
      dsimp only
      rw [findItem_none_filter hnone]
      rfl
    · obtain ⟨it0, hfi, hst⟩ := Option.map_eq_some'.mp h
      refine Or.inl ?_
      unfold statusOf
      dsimp only
      rw [findItem_filter hnd hfi]
      rw [if_neg (by simp [hst])]
      rfl
    · obtain ⟨it0, hfi, hst⟩ := Option.map_eq_some'.mp h
      refine Or.inr (Or.inr (Or.inl ?_))
      unfold statusOf
      dsimp only
      rw [findItem_filter hnd hfi]
      rw [if_pos (by simp [hst])]
      simp [hst]
    · obtain ⟨it0, hfi, hst⟩ := Option.map_eq_some'.mp h
      refine Or.inr (Or.inr (Or.inr ?_))
      unfold statusOf
      dsimp only
      rw [findItem_filter hnd hfi]
      rw [if_pos (by simp [hst])]
      simp [hst]

theorem term_status_preserved {s : QState} {evs : List QEvent} {s' : QState}
    {id : String}
    (h : QStepsTo s evs s') (hinv : QInv s) (hterm : TermStatusOpt (statusOf s id))
    (hno : ∀ e ∈ evs, e ≠ QEvent.retry id ∧ e ≠ QEvent.enqueue id) :
    TermStatusOpt (statusOf s' id) := by
  induction h with
  | refl s => exact hterm
  | @tail s e s1 evs s2 h1 h2 ih =>
    exact ih (qinv_step h1 hinv)
      (term_status_step h1 hinv hterm
        (hno e (List.mem_cons_self e evs)).1 (hno e (List.mem_cons_self e evs)).2)
      (fun x hx => hno x (List.mem_cons_of_mem e hx))

/-- C5: in every reachable state of the client queue at most one item is in
`preparing`/`downloading`; and an admission step is only possible for the
head of the FIFO pending queue, only when no item occupies the active slot
(the admitted item was `queued` and becomes `preparing`, alone in flight);
moreover in the pre-state every still-`queued` item is in the pending queue
(so with items enqueued A, B, C in order, B is admitted only once it is the
head, after A has left both the queue and the active slot). -/
theorem queue_single_active_slot_fifo :
    (∀ s, QReachable s → activeCount s.items ≤ 1) ∧
    (∀ s id s', QReachable s → QStep s (QEvent.admitHead id) s' →
      s.queue.head? = some id ∧ activeCount s.items = 0 ∧
      statusOf s id = some DStatus.queued ∧
      statusOf s' id = some DStatus.preparing ∧
      s'.inflight = [id] ∧
      (∀ it ∈ s.items, it.status = DStatus.queued → it.id ∈ s.queue)) := by
  constructor
  · intro s hs
    obtain ⟨hnd, hlen, hact, hque⟩ := qinv_reachable hs
    exact activeCount_le_one hnd hact hlen
  · intro s id s' hs hstep
    obtain ⟨hnd, hlen, hact, hque⟩ := qinv_reachable hs
    cases hstep with
    | @admitHead id2 rest it hq hslot hit hst =>
      refine ⟨by rw [hq]; rfl, ?_, ?_, ?_, rfl, hque⟩
      · apply activeCount_eq_zero
        intro it2 hit2 hact2
        have := hact it2 hit2 hact2
        rw [hslot] at this
        simp at this
      · unfold statusOf
        rw [hit]
        simp [hst]
      · unfold statusOf
        dsimp only
        rw [findItem_setStatus_self, hit]
        rfl

/-- C7: cancelling a `queued` item flips its status to `cancelled`, removes
its identifier from the pending queue, and touches neither the in-flight
set nor anything else (no request is ever issued for it); once an item is
`cancelled`, no run that never retries it (nor re-enqueues its identifier)
can bring it to `preparing`; and a dequeued identifier that no longer names
a `queued` item is skipped: the items and the in-flight transfers are
untouched and only the queue head is dropped. -/
theorem cancelled_queued_never_prepares :
    (∀ s id s', QStep s (QEvent.cancelQueued id) s' →
      statusOf s' id = some DStatus.cancelled ∧ id ∉ s'.queue ∧
      s'.inflight = s.inflight ∧ s'.queue = s.queue.filter (fun x => x ≠ id)) ∧
    (∀ s evs s' id, QStepsTo s evs s' → QInv s →
      statusOf s id = some DStatus.cancelled →
      (∀ e ∈ evs, e ≠ QEvent.retry id ∧ e ≠ QEvent.enqueue id) →
      statusOf s' id ≠ some DStatus.preparing) ∧
    (∀ s id s', QStep s (QEvent.skip id) s' →
      s'.items = s.items ∧ s'.inflight = s.inflight ∧ s.queue = id :: s'.queue) := by
  refine ⟨?_, ?_, ?_⟩
  · intro s id s' hstep
    cases hstep with
    | @cancelQueued id2 it hit hst =>
      refine ⟨?_, ?_, rfl, rfl⟩
      · unfold statusOf
        dsimp only
        rw [findItem_setStatus_self, hit]
        rfl
      · dsimp only
        intro hmem
        have := List.of_mem_filter hmem
        simp at this
  · intro s evs s' id hsteps hinv hcanc hno hpre
    have hfinal := term_status_preserved hsteps hinv
      (Or.inr (Or.inr (Or.inr hcanc))) hno
    unfold TermStatusOpt at hfinal
    rcases hfinal with h | h | h | h <;> rw [hpre] at h <;> simp at h
  · intro s id s' hstep
    cases hstep with
    | @skip id2 rest hq hslot hno2 => exact ⟨rfl, rfl, by rw [hq]⟩
